import Mathlib

/-!
# swiper: a verification development over `swiper.c`

A shallow embedding of the live-wallpaper engine `swiper.c`.

Conventions of the embedding:

* a C string (`char *`) is the list of its characters up to the terminating NUL;
* a directory is the list of its entries in the order `readdir` returns them,
  each entry carrying the `st_size` that `stat` reports for it;
* a call of `die`/`dief` ends the run, and is modelled by an error value
  carrying the message;
* `double` arithmetic is modelled over `ℚ`: in `swiper_save_action` every rounding
  step is an explicit rounding function `rnd`, in `swiper_execute_wallpaper` every
  operation is rounded to the nearest `double` by `fl`;
* loops that need not terminate carry a fuel argument.
-/

namespace Swiper

/-! ## Constants (`#define`s of the source) -/

/-- A C string, without its terminating NUL. -/
abbrev CStr := List Char

def FIELD_LEN : Nat := 64
def LINE_LEN : Nat := 128
def FILE_LEN : Nat := 256
def PATH_LEN : Nat := 512

def MATCH_STR : CStr := "frame=".toList
def MNT_SZ : Int := 1000000000
def TFSMP : CStr := "/mnt/swiper".toList
def NUNITS : Nat := 25

def F_SAVE : Nat := 1
def F_RUN : Nat := 2
def F_DAEMONIZE : Nat := 4
def F_WIDTH : Nat := 8
def F_HEIGHT : Nat := 16
def F_CACHE : Nat := 32
def F_FORCE : Nat := 64
def F_RFPS : Nat := 128
def F_PNG : Nat := 256
def F_PFPS : Nat := 512
def F_INSPECT : Nat := 1024

/-! ## libc helpers -/

/-- The value of `*s` for a C string: its first character, NUL when empty. -/
def deref (s : CStr) : Char := s.headD (Char.ofNat 0)

/-- The text `snprintf(buf, n, ...)` leaves in `buf`: at most `n - 1` characters of
the formatted text `s`. -/
def snprintf (n : Nat) (s : CStr) : CStr := s.take (n - 1)

/-- The conversion `%d` of a non-negative integer. -/
def fmt_d (i : Nat) : CStr := Nat.toDigits 10 i

/-- The conversion `%04d` of a non-negative integer: `%d`, zero-padded on the left
to a width of at least four. -/
def fmt_04d (i : Nat) : CStr :=
  List.replicate (4 - (fmt_d i).length) '0' ++ fmt_d i

/-! ## Directories -/

/-- The `d_type` of a directory entry. -/
inductive DType where
  | DT_REG
  | DT_DIR
  | DT_LNK
  | DT_UNKNOWN
deriving DecidableEq, Repr

/-- A directory entry as `readdir` returns it (`d_name`, `d_type`), together with the
size `stat` reports for it (`st_size`). -/
structure Dirent where
  d_name : CStr
  d_type : DType
  st_size : Nat
deriving DecidableEq, Repr

/-- The path of an entry of the directory `dirpath`. -/
def entry_path (dirpath : CStr) (ent : Dirent) : CStr :=
  dirpath ++ '/' :: ent.d_name

/-- The call `remove(filepath)` against the directory `dirpath` whose entries are `ents`:
`none` when it returns -1 (no entry of the directory has that path), otherwise the
entries that are left.  Entries of every type are taken to be removable. -/
def remove (dirpath : CStr) (ents : List Dirent) (filepath : CStr) : Option (List Dirent) :=
  if ents.any (fun ent => entry_path dirpath ent == filepath) then
    some (ents.filter (fun ent => !(entry_path dirpath ent == filepath)))
  else none

/-- The test `ent->d_type == DT_REG && *(ent->d_name) != '.'`. -/
def is_visfile (ent : Dirent) : Bool :=
  ent.d_type == DType.DT_REG && deref ent.d_name != '.'

/-- `lateral_dir_visfile_count`: the number of first-layer, regular, non-hidden files.
The counter `n` is an `int` in the source; a directory is taken to hold fewer than
`2^31` entries. -/
def lateral_dir_visfile_count (ents : List Dirent) : Nat :=
  ents.foldl (fun n ent => if is_visfile ent then n + 1 else n) 0

/-! ## `swiper_shave_s_path` -/

/-- The state of the loop of `swiper_shave_s_path`. -/
structure ShaveState where
  /-- the entries of the directory -/
  ents : List Dirent
  /-- the paths removed so far, in order -/
  removed : List CStr
  /-- the message of `die`, once it has been called -/
  died : Option String
deriving DecidableEq, Repr

/-- The path `swiper_shave_s_path` builds for the ordinal `i`:
`snprintf(filepath, PATH_LEN+8, "%s/%d.%s", s_path, i, format)`. -/
def shave_path (s_path : CStr) (i : Nat) (format : CStr) : CStr :=
  snprintf (PATH_LEN + 8) (s_path ++ '/' :: fmt_d i ++ '.' :: format)

/-- The path of the file of ordinal `i` in the directory `dir`: `<dir>/<i>.<ext>`. -/
def ordinal_path (dir : CStr) (i : Nat) (ext : CStr) : CStr :=
  dir ++ '/' :: (fmt_d i ++ '.' :: ext)

/-- The loop `for(int i = 10000; i <= n; ++i)` of `swiper_shave_s_path`, with `rem`
iterations left. -/
def shave_loop (s_path format : CStr) : Nat → Nat → ShaveState → ShaveState
  | 0, _, st => st
  | rem + 1, i, st =>
    match remove s_path st.ents (shave_path s_path i format) with
    | none => { st with died := some "fatal bug; unrecognised file path" }
    | some ents =>
      shave_loop s_path format rem (i + 1)
        { st with ents := ents, removed := st.removed ++ [shave_path s_path i format] }

/-- `swiper_shave_s_path(s_path, n, format)` run against the directory `ents`. -/
def swiper_shave_s_path (s_path : CStr) (n : Nat) (format : CStr) (ents : List Dirent) :
    ShaveState :=
  shave_loop s_path format (n + 1 - 10000) 10000 ⟨ents, [], none⟩

/-! ## `swiper_retrieve_image_names` -/

/-- What `swiper_retrieve_image_names` leaves behind when it returns. -/
structure RetrieveResult where
  /-- the value stored in `*nfiles` -/
  nfiles : Nat
  /-- the names written to `files[0]`, `files[1]`, ... -/
  files : List CStr
  /-- the entries of the directory afterwards -/
  ents : List Dirent
  /-- the paths removed by `swiper_shave_s_path` -/
  removed : List CStr
deriving DecidableEq, Repr

/-- The loop `for(int i = 0; (ent = readdir(dir)) != NULL; ++i)` of
`swiper_retrieve_image_names`; `files[i]` is the next slot written, so the names written
so far are `files`.  Here `len = sizeof(int) * 4 + 5 = 21`. -/
def name_loop (format : CStr) : List Dirent → Nat → List CStr → List CStr
  | [], _, files => files
  | ent :: rest, i, files =>
    if deref ent.d_name != '.' && ent.d_type == DType.DT_REG then
      name_loop format rest (i + 1) (files ++ [snprintf 21 (fmt_04d (i + 1) ++ '.' :: format)])
    else
      name_loop format rest i files

/-- `swiper_retrieve_image_names(&nfiles, dirpath, format)` run against the directory
`ents`; the directory is taken to open and allocation to succeed.  The directory stream
is read only after the shaving, so the naming loop sees the entries that are left. -/
def swiper_retrieve_image_names (dirpath format : CStr) (ents : List Dirent) :
    Except String RetrieveResult :=
  let nfiles := lateral_dir_visfile_count ents
  if 9999 < nfiles then
    let st := swiper_shave_s_path dirpath nfiles format ents
    match st.died with
    | some msg => .error msg
    | none => .ok ⟨9999, name_loop format st.ents 0 [], st.ents, st.removed⟩
  else
    .ok ⟨nfiles, name_loop format ents 0 [], ents, []⟩

/-- The entry of the frame with ordinal `i`, named as the extraction step names it
(`%04d.<format>`). -/
def frame_ent (i : Nat) (format : CStr) : Dirent :=
  ⟨fmt_04d i ++ '.' :: format, DType.DT_REG, 100000⟩

/-- A directory holding the frames with the ordinals `1..k`. -/
def frame_dir (k : Nat) (format : CStr) : List Dirent :=
  (List.range' 1 k).map (fun i => frame_ent i format)

/-- A directory holding the frames `0001.jpg` to `9999.jpg` and one more picture. -/
def stray_dir : List Dirent :=
  frame_dir 9999 "jpg".toList ++ [⟨"cover.jpg".toList, DType.DT_REG, 100000⟩]

/-! ## `swiper_save_action` -/

/-- The test `isspace(c)`. -/
def isspace (c : Char) : Bool :=
  c == ' ' || c == '\t' || c == '\n' || c == Char.ofNat 11 || c == Char.ofNat 12 || c == '\r'

/-- The test `isdigit(c)`. -/
def isdigit (c : Char) : Bool := 48 ≤ c.toNat && c.toNat ≤ 57

/-- The value of a decimal digit. -/
def digit_val (c : Char) : Nat := c.toNat - 48

/-- The digits a `%d` conversion consumes, accumulated from the left. -/
def scan_digits : CStr → Nat → Nat
  | [], acc => acc
  | c :: cs, acc => if isdigit c then scan_digits cs (acc * 10 + digit_val c) else acc

/-- The value an `int` object holds after being assigned `v`.  Where `v` is out of range
the C standard leaves the result open; values are reduced modulo `2^32`. -/
def to_int32 (v : Int) : Int := (v + 2 ^ 31) % 2 ^ 32 - 2 ^ 31

/-- The value `strtol` returns for digits of value `v`: outside the range of `long` it is
`LONG_MIN` or `LONG_MAX`. -/
def strtol (v : Int) : Int := max (-(2 ^ 63)) (min v (2 ^ 63 - 1))

/-- The call `sscanf(s, " %d ", &frame)`: the value stored in `frame`, or `none` when the
input does not match and `frame` is left as it was.  The digits are converted as by
`strtol` and the `long` is stored in the `int` (glibc). -/
def sscanf_d (s : CStr) : Option Int :=
  match s.dropWhile isspace with
  | [] => none
  | '-' :: cs =>
    if isdigit (deref cs) then some (to_int32 (strtol (-(scan_digits cs 0 : Int)))) else none
  | '+' :: cs =>
    if isdigit (deref cs) then some (to_int32 (strtol (scan_digits cs 0))) else none
  | c :: cs => if isdigit c then some (to_int32 (strtol (scan_digits (c :: cs) 0))) else none

/-- The C string held in a buffer: its bytes up to the first NUL. -/
def cstr (buf : List Char) : CStr := buf.takeWhile (fun c => c != Char.ofNat 0)

/-- The test `strstr(hay, needle) != NULL`. -/
def strstr (hay needle : CStr) : Bool :=
  match hay with
  | [] => needle.isEmpty
  | c :: cs => needle.isPrefixOf (c :: cs) || strstr cs needle

/-- One call of `strtok(..., "=")` on the text `s` that is left: `none` for `NULL`,
otherwise the token and the text after its delimiter. -/
def strtok (s : CStr) : Option (CStr × CStr) :=
  match s.dropWhile (fun c => c == '=') with
  | [] => none
  | c :: cs =>
    some ((c :: cs).takeWhile (fun c => c != '='), ((c :: cs).dropWhile (fun c => c != '=')).drop 1)

/-- The argument of `sscanf` in `swiper_save_action`: `strtok(long_line, "=")` followed by
`strtok(NULL, "=")`; `none` when the second call returns `NULL`. -/
def second_token (long_line : CStr) : Option CStr :=
  match strtok long_line with
  | none => none
  | some (_, rest) =>
    match strtok rest with
    | none => none
    | some (tok, _) => some tok

/-- The call `read(fd, c, 1)` on the pipe: the next byte, or `*c` unchanged once the
subprocess has closed its output.  Returns the new `*c` and the rest of the stream. -/
def read_byte (stream : List Char) (c : Char) : Char × List Char :=
  match stream with
  | [] => (c, [])
  | b :: bs => (b, bs)

/-- The loops `for(x = 0; !stop(*c) && x < len; ++x) { read(fd, c, 1); long_line[x] = *c; }`
with `rem = len - x` iterations left; `line` holds `long_line[0..x)`.  Returns the line and
the rest of the stream; the final `x` is the length of the line. -/
def read_loop (stop : Char → Bool) : Nat → Char → List Char → List Char → List Char × List Char
  | 0, _, line, stream => (line, stream)
  | rem + 1, c, line, stream =>
    if stop c then (line, stream)
    else read_loop stop rem (read_byte stream c).1 (line ++ [(read_byte stream c).1])
      (read_byte stream c).2

/-- The byte cap of a line: `len = LINE_LEN * 2`. -/
def len : Nat := LINE_LEN * 2

/-- The line read before the first marker line: terminated by a newline or a carriage
return (`*c` starts at 1). -/
def read_line_skip (stream : List Char) : List Char × List Char :=
  read_loop (fun c => c == '\n' || c == '\r') len (Char.ofNat 1) [] stream

/-- The line read after a progress line: terminated by a carriage return only. -/
def read_line_progress (stream : List Char) : List Char × List Char :=
  read_loop (fun c => c == '\r') len (Char.ofNat 1) [] stream

/-- How a run of `swiper_save_action` ends. -/
inductive Outcome where
  /-- the function returns -/
  | done
  /-- `die` was called with this message -/
  | died (msg : String)
  /-- a null pointer was handed to `sscanf` -/
  | crashed
  /-- the model ran out of fuel: the loop is still running -/
  | out_of_fuel
deriving DecidableEq, Repr

/-- The result of the loop `while(strstr(long_line, MATCH_STR) == NULL)`. -/
inductive Skip where
  /-- the loop ended with this `long_line`, this `x` and this rest of the stream -/
  | found (long_line : List Char) (x : Nat) (stream : List Char)
  | died (msg : String)
  | out_of_fuel
deriving DecidableEq, Repr

/-- The loop `while(strstr(long_line, MATCH_STR) == NULL)` of `swiper_save_action`. -/
def skip_loop : Nat → List Char → Nat → List Char → Skip
  | 0, _, _, _ => Skip.out_of_fuel
  | fuel + 1, long_line, x, stream =>
    if strstr (cstr long_line) MATCH_STR then Skip.found long_line x stream
    else if len ≤ (read_line_skip stream).1.length then Skip.died "unexpected ffmpeg output"
    else skip_loop fuel (read_line_skip stream).1 (read_line_skip stream).1.length
      (read_line_skip stream).2

/-- One line of progress output: the counter it was computed from, the percentage printed
and the bar printed. -/
structure Progress where
  frame : Int
  pcnt : ℚ
  bar : List Char
deriving DecidableEq

/-- The locals of `swiper_save_action` that the source does not initialise, with the
values they happen to hold. -/
structure SaveInit where
  long_line : List Char
  x : Nat
  frame : Int
  pcnt : ℚ

/-- The state of the `do ... while(pcnt < 100.00)` loop of `swiper_save_action`. -/
structure SaveState where
  frame : Int
  pcnt : ℚ
  x : Nat
  long_line : List Char
  stream : List Char
  printed : List Progress

/-- The result of `swiper_save_action`: what was printed, and how the run ended. -/
structure SaveResult where
  printed : List Progress
  outcome : Outcome

/-- The counter `frame` after the two `strtok` calls and the `sscanf` on `long_line`;
`none` when `sscanf` is handed `NULL`. -/
def extract_frame (long_line : List Char) (frame : Int) : Option Int :=
  match second_token (cstr long_line) with
  | none => none
  | some tok => some ((sscanf_d tok).getD frame)

/-- The value `((double) frame / nfr) * 100`, each operation rounded by `rnd`.  For
`nfr = 0` the value in C is an infinity or a NaN, which is not modelled. -/
def percent (rnd : ℚ → ℚ) (frame nfr : Int) : ℚ :=
  rnd (rnd ((frame : ℚ) / (nfr : ℚ)) * 100)

/-- The percentage `printf` is handed: `(pcnt >= 100) ? 100.00 : pcnt`. -/
def shown (pcnt : ℚ) : ℚ := if pcnt ≥ 100 then 100 else pcnt

/-- The bar built by the loop `for(int j = 0; j < NUNITS; ++j)`. -/
def make_bar (rnd : ℚ → ℚ) (frame nfr : Int) : List Char :=
  (List.range NUNITS).map (fun j =>
    if rnd ((frame : ℚ) / (nfr : ℚ)) ≥ rnd ((j : ℚ) / (NUNITS : ℚ)) then '#' else '-')

/-- The `do ... while(pcnt < 100.00)` loop of `swiper_save_action`. -/
def progress_loop (rnd : ℚ → ℚ) (nfr : Int) : Nat → SaveState → SaveResult
  | 0, st => ⟨st.printed, Outcome.out_of_fuel⟩
  | fuel + 1, st =>
    match extract_frame st.long_line st.frame with
    | none => ⟨st.printed, Outcome.crashed⟩
    | some frame =>
      let st1 := { st with frame := frame }
      let bar := make_bar rnd st1.frame nfr
      let st2 := { st1 with pcnt := if len ≤ st1.x then 100 else st1.pcnt }
      let st3 := { st2 with pcnt := percent rnd st2.frame nfr }
      let st4 := { st3 with printed := st3.printed ++ [Progress.mk st3.frame (shown st3.pcnt) bar] }
      let st5 := { st4 with
        x := (read_line_progress st4.stream).1.length
        long_line := (read_line_progress st4.stream).1
        stream := (read_line_progress st4.stream).2 }
      if st5.pcnt < 100 then progress_loop rnd nfr fuel st5
      else ⟨st5.printed, Outcome.done⟩

/-- `swiper_save_action(cmd, nfr)`, where `stream` is the output of the subprocess that
`popen(cmd, "r")` started. -/
def swiper_save_action (rnd : ℚ → ℚ) (init : SaveInit) (stream : List Char) (nfr : Int)
    (fuel : Nat) : SaveResult :=
  match skip_loop fuel init.long_line init.x stream with
  | Skip.died msg => ⟨[], Outcome.died msg⟩
  | Skip.out_of_fuel => ⟨[], Outcome.out_of_fuel⟩
  | Skip.found long_line x rest =>
    progress_loop rnd nfr fuel (SaveState.mk init.frame init.pcnt x long_line rest [])

/-! ## `swiper_execute_wallpaper` -/

/-- The path `feh_display_wallpaper(image, a_path)` hands to `feh` as `argv[2]`:
`snprintf(argv[2], len, "%s/%s", a_path, image)` with
`len = strlen(a_path) + strlen(image) + 2`. -/
def feh_display_wallpaper (image a_path : CStr) : CStr :=
  snprintf (a_path.length + image.length + 2) (a_path ++ '/' :: image)

/-- A `struct timespec`. -/
structure Timespec where
  tv_sec : Int
  tv_nsec : Int
deriving DecidableEq, Repr

/-- What `nanosleep` accepts: a request whose `tv_nsec` is outside `0..999999999` (or
whose `tv_sec` is negative) fails with `EINVAL` and no sleep takes place. -/
def valid_timespec (req : Timespec) : Bool :=
  decide (0 ≤ req.tv_sec) && decide (0 ≤ req.tv_nsec) && decide (req.tv_nsec ≤ 999999999)

/-- The time `nanosleep(&req, ...)` sleeps, in nanoseconds, when it is not interrupted. -/
def nanosleep (req : Timespec) : Int :=
  if valid_timespec req then req.tv_sec * 1000000000 + req.tv_nsec else 0

/-- The calls `swiper_execute_wallpaper` makes that can be observed from outside. -/
inductive Event where
  /-- `feh_display_wallpaper`, with the path handed to `feh` -/
  | display (path : CStr)
  /-- `nanosleep(&reg, &res)`, with the value of `reg` -/
  | nanosleep (reg : Timespec)
deriving DecidableEq, Repr

/-- The surroundings of `swiper_execute_wallpaper`: the value of the global `term` at each
of its successive reads, and the value of each successive call of `clock()`. -/
structure SchedEnv where
  term : Nat → Bool
  clock : Nat → Int

/-- The state of `swiper_execute_wallpaper`: the number of reads of `term` and of calls
of `clock()` made so far, the local `reg`, and the calls made so far. -/
structure SchedState where
  polls : Nat
  clocks : Nat
  reg : Timespec
  trace : List Event

/-- The value of `CLOCKS_PER_SEC` (fixed by POSIX). -/
def CLOCKS_PER_SEC : Int := 1000000

/-- Truncation towards zero. -/
def trunc (q : ℚ) : Int := Int.tdiv q.num q.den

/-- The integer nearest to `q`, a tie going to the even one. -/
def round_even (q : ℚ) : Int :=
  if q - (⌊q⌋ : ℚ) < 1 / 2 then ⌊q⌋
  else if 1 / 2 < q - (⌊q⌋ : ℚ) then ⌊q⌋ + 1
  else if ⌊q⌋ % 2 = 0 then ⌊q⌋ else ⌊q⌋ + 1

/-- The power `2^k` for an integer `k`. -/
def pow2 (k : Int) : ℚ := if 0 ≤ k then 2 ^ k.toNat else 1 / 2 ^ (-k).toNat

/-- The number of halvings that bring `n` below 2, in at most `fuel` steps. -/
def ilog2_loop : Nat → Nat → Nat
  | 0, _ => 0
  | fuel + 1, n => if n < 2 then 0 else ilog2_loop fuel (n / 2) + 1

/-- The position of the leading bit of `n`: the `k` with `2^k ≤ n < 2^(k+1)` for
`n > 0`. -/
def ilog2 (n : Nat) : Nat := ilog2_loop n n

/-- The binary exponent of `q ≠ 0`: the `e` with `2^e ≤ |q| < 2^(e+1)`. -/
def exponent (q : ℚ) : Int :=
  if pow2 ((ilog2 q.num.natAbs : Int) - (ilog2 q.den : Int)) ≤ |q|
  then (ilog2 q.num.natAbs : Int) - (ilog2 q.den : Int)
  else (ilog2 q.num.natAbs : Int) - (ilog2 q.den : Int) - 1

/-- The `double` that an operation of exact result `q` delivers (IEEE 754 binary64, round
to nearest, ties to even): `q` rounded to 53 significant bits.  The range of the exponent
is not bounded here; the values of `n_delay` and `deduct` are the same with it, as a
result too large for a `double` is too large for a `long` and a result too small is
truncated to 0 either way. -/
def fl (q : ℚ) : ℚ :=
  if q = 0 then 0
  else (round_even (q / pow2 (exponent q - 52)) : ℚ) * pow2 (exponent q - 52)

/-- The conversion of a `double` to `long`: truncation towards zero.  For a value outside
the range of `long` the C standard leaves the result open; the result is that of the
x86-64 conversion instruction, `LONG_MIN`. -/
def to_long (q : ℚ) : Int :=
  if -(2 : ℚ) ^ 63 ≤ q ∧ q < (2 : ℚ) ^ 63 then trunc q else -(2 ^ 63)

/-- The statement `reg.tv_nsec -= (((double) end - start) / CLOCKS_PER_SEC) * pow(10,9);`:
the new value of `reg.tv_nsec`.  Every operand is converted to `double`, every operation
is rounded to `double`, and the result is converted back to `long`. -/
def deduct (tv_nsec start end_ : Int) : Int :=
  to_long (fl (fl (tv_nsec : ℚ)
    - fl (fl (fl (fl (end_ : ℚ) - fl (start : ℚ)) / fl (CLOCKS_PER_SEC : ℚ)) * 10 ^ 9)))

/-- The loop `for(int i = 0; i < n; ++i)` of `swiper_execute_wallpaper`, with `rem = n - i`
iterations left.  A `break` ends the loop. -/
def for_loop (env : SchedEnv) (files : List CStr) (a_path : CStr) (n_delay : Int) :
    Nat → Nat → SchedState → SchedState
  | 0, _, st => st
  | rem + 1, i, st =>
    let st1 := { st with reg := { st.reg with tv_nsec := n_delay } }
    let start := env.clock st1.clocks
    let st2 := { st1 with clocks := st1.clocks + 1 }
    let brk := env.term st2.polls
    let st3 := { st2 with polls := st2.polls + 1 }
    if brk then st3
    else
      let st4 := { st3 with
        trace := st3.trace ++ [Event.display (feh_display_wallpaper (files.getD i []) a_path)] }
      let end_ := env.clock st4.clocks
      let st5 := { st4 with clocks := st4.clocks + 1 }
      let st6 := { st5 with reg := { st5.reg with
        tv_nsec := deduct st5.reg.tv_nsec start end_ } }
      if st6.reg.tv_nsec < 0 then for_loop env files a_path n_delay rem (i + 1) st6
      else for_loop env files a_path n_delay rem (i + 1)
        { st6 with trace := st6.trace ++ [Event.nanosleep st6.reg] }

/-- The loop `while(1)` of `swiper_execute_wallpaper`; `fuel` bounds the number of passes.
Returns the final state and whether the loop was left (the function returned). -/
def while_loop (env : SchedEnv) (files : List CStr) (n : Nat) (a_path : CStr) (n_delay : Int) :
    Nat → SchedState → SchedState × Bool
  | 0, st => (st, false)
  | fuel + 1, st =>
    if env.term st.polls then ({ st with polls := st.polls + 1 }, true)
    else while_loop env files n a_path n_delay fuel
      (for_loop env files a_path n_delay n 0 { st with polls := st.polls + 1 })

/-- The delay `n_delay = (1 / dfps) * pow(10, 9)`: the quotient and the product are rounded
to `double` and the result is converted to `long`.  For `dfps = 0` the quotient is an
infinity, which is outside the range of `long`. -/
def n_delay (dfps : ℚ) : Int :=
  if dfps = 0 then -(2 ^ 63) else to_long (fl (fl (1 / dfps) * 10 ^ 9))

/-- `swiper_execute_wallpaper(files, n, a_path, dfps)`. -/
def swiper_execute_wallpaper (env : SchedEnv) (files : List CStr) (n : Nat) (a_path : CStr)
    (dfps : ℚ) (fuel : Nat) : SchedState × Bool :=
  while_loop env files n a_path (n_delay dfps) fuel ⟨0, 0, ⟨0, 0⟩, []⟩

/-- The paths displayed, in order. -/
def displays : List Event → List CStr
  | [] => []
  | Event.display path :: rest => path :: displays rest
  | Event.nanosleep _ :: rest => displays rest

/-- The display time measured for a frame, in nanoseconds, from its two readings of
`clock()`. -/
def elapsed_ns (start end_ : Int) : Int := (end_ - start) * 1000

/-- The calls made for one frame that is displayed: the display of `files[i]` under the
frame root, followed by a sleep of `tv_nsec`, the value left in `reg.tv_nsec` by the
deduction, unless that is negative. -/
def frame_events (files : List CStr) (a_path : CStr) (tv_sec : Int) (i : Nat)
    (tv_nsec : Int) : List Event :=
  Event.display (a_path ++ '/' :: files.getD i [])
    :: (if tv_nsec < 0 then [] else [Event.nanosleep ⟨tv_sec, tv_nsec⟩])

/-- The calls made for `m` frames displayed in a row, starting with `files[i]`, when `c`
calls of `clock()` have been made before: the deduction of each frame starts from the
full delay and takes the two readings of `clock()` of that frame. -/
def pass_events (env : SchedEnv) (files : List CStr) (a_path : CStr) (n_delay tv_sec : Int)
    (i c m : Nat) : List Event :=
  (List.range m).flatMap (fun j =>
    frame_events files a_path tv_sec (i + j)
      (deduct n_delay (env.clock (c + 2 * j)) (env.clock (c + 2 * j + 1))))

/-- The calls made for the first `d` frames displayed, the `j`-th of them being
`files[j mod n]`. -/
def run_events (env : SchedEnv) (files : List CStr) (n : Nat) (a_path : CStr) (n_delay : Int)
    (d : Nat) : List Event :=
  (List.range d).flatMap (fun j =>
    frame_events files a_path 0 (j % n)
      (deduct n_delay (env.clock (2 * j)) (env.clock (2 * j + 1))))

/-- The time slept, in nanoseconds, at each call of `nanosleep` of a run, in order. -/
def slept : List Event → List Int
  | [] => []
  | Event.display _ :: rest => slept rest
  | Event.nanosleep reg :: rest => nanosleep reg :: slept rest

/-! ## `swiper_safety_protocol` and `main` -/

/-- The loop of `is_num_str`, with the local `period`.  (A byte above 127 is negative as
a `char` and fails the first test in C; it then fails the second as well, and the loop
carries on as it does here.) -/
def is_num_str_loop : CStr → Nat → Bool
  | [], _ => true
  | c :: cs, period =>
    if 48 ≤ c.toNat && 57 ≤ c.toNat then is_num_str_loop cs period
    else if c == '.' then
      if period != 0 then false else is_num_str_loop cs (period + 1)
    else is_num_str_loop cs period

/-- `is_num_str(str)`: `true` for a non-zero result. -/
def is_num_str (str : CStr) : Bool := is_num_str_loop str 0

/-- The loop of `lateral_dir_visfile_isempty`, with the local `i`. -/
def isempty_loop : List Dirent → Int → Bool
  | [], _ => true
  | ent :: rest, i =>
    if 0 < (if deref ent.d_name == '.' then i - 1 else i) then false
    else isempty_loop rest ((if deref ent.d_name == '.' then i - 1 else i) + 1)

/-- `lateral_dir_visfile_isempty(path)`: `true` for the result 1. -/
def lateral_dir_visfile_isempty (ents : List Dirent) : Bool := isempty_loop ents 0

/-- `lateral_dir_visfile_size(dirpath)`: the sum of `st_size` over every entry read,
accumulated in an `unsigned long` that starts from the indeterminate value `size0`, and
returned as an `int`. -/
def lateral_dir_visfile_size (size0 : Nat) (ents : List Dirent) : Int :=
  to_int32 (ents.foldl (fun size ent => (size + ent.st_size) % 2 ^ 64) size0 : Nat)

/-- What `swiper_safety_protocol` asks of the system. -/
structure Sys where
  /-- the result of `is_duplicate_proc(SREGXP)` -/
  nproc : Int
  /-- the text of `pi->v_path` -/
  v_path : CStr
  /-- whether `stat(pi->v_path)` succeeds -/
  v_stat : Bool
  /-- the text of `md->rfps` -/
  rfps : CStr
  /-- the text of `md->pfps` -/
  pfps : CStr
  /-- the entries of the directory `pi->s_path` -/
  s_dir : List Dirent
  /-- the result of `getuid()` -/
  uid : Nat
  /-- the indeterminate initial value of `size` in `lateral_dir_visfile_size` -/
  size0 : Nat
  /-- whether `mount` succeeds -/
  mount_ok : Bool

/-- The test `flags & mask` of the source. -/
def has (flags mask : Nat) : Bool := flags &&& mask != 0

/-- `swiper_safety_protocol(flags, md, pi)`: the message of the `die` it ends in, or
`none` when it returns.  The two `mkdir` calls of the function, which decide no test, are
left out. -/
def swiper_safety_protocol (flags : Nat) (sys : Sys) : Option String :=
  if !has flags F_FORCE && decide (1 < sys.nproc) then
    some "duplicate process detected (like .*oswip.*)"
  else if !has flags F_SAVE && (!has flags F_RUN && !has flags F_INSPECT) then
    some "must inspect (-i), save (-s), or apply wallpaper (-a)"
  else if has flags F_INSPECT && has flags (F_SAVE ||| F_RUN) then
    some "must inspect (-i) as a standalone operation\n"
  else if !has flags F_SAVE && has flags F_RFPS then
    some "incompatible option, -r, requires -s"
  else if !has flags F_SAVE && has flags F_WIDTH then
    some "incompatible option, -w, requires -s"
  else if !has flags F_SAVE && has flags F_HEIGHT then
    some "incompatible option, -h, requires -s"
  else if !has flags F_SAVE && has flags F_PNG then
    some "incompatible option, -P, requires -s"
  else if !has flags F_RUN && has flags (F_RFPS ||| F_WIDTH ||| F_HEIGHT ||| F_PNG)
      && has flags F_CACHE then
    some "incompatible option, -c, requires -a"
  else if !has flags F_RUN && has flags (F_RFPS ||| F_WIDTH ||| F_HEIGHT ||| F_PNG)
      && has flags F_DAEMONIZE then
    some "incompatible option, -d, requires -a"
  else if !has flags F_RUN && has flags (F_RFPS ||| F_WIDTH ||| F_HEIGHT ||| F_PNG)
      && has flags F_PFPS then
    some "incompatible option, -p, requires -a"
  else if (has flags F_INSPECT || has flags F_SAVE) && !sys.v_stat then
    some ("no such file, \x27" ++ String.mk sys.v_path ++ "\x27")
  else if has flags F_SAVE && has flags F_RFPS && !is_num_str sys.rfps then
    some "invalid format for argument of, -r"
  else if has flags F_RUN && lateral_dir_visfile_isempty sys.s_dir then
    some "no wallpaper saved, use \x27-s <video-file>\x27"
  else if has flags F_RUN && has flags F_PFPS && !is_num_str sys.pfps then
    some "invalid format for argument of, -r"
  else if has flags F_RUN && has flags F_CACHE && sys.uid != 0 then
    some "must run as superuser for, -c"
  else if has flags F_RUN && has flags F_CACHE
      && decide (MNT_SZ ≤ lateral_dir_visfile_size sys.size0 sys.s_dir) then
    some "not enough space to cache frames in /mnt/swiper"
  else none

/-- The steps of `main` that act on the system. -/
inductive Step where
  | swiper_request_metadata
  | cleardir (dirpath : CStr)
  | swiper_save_metadata
  | swiper_render_frames
  | rolling_umount (mp : CStr)
  | mount (target : CStr)
  | copydir (dst src : CStr)
  | swiper_load_metadata
  | swiper_retrieve_image_names
  | daemon
  | swiper_execute_wallpaper
  | swiper_shutdown
deriving DecidableEq, Repr

/-- The result of `main`: the steps executed, and the message of the `die` that ended the
run, if one did. -/
structure MainResult where
  steps : List Step
  died : Option String
deriving DecidableEq, Repr

/-- The steps of `main` for `-s`. -/
def save_steps (flags : Nat) (s_path : CStr) : List Step :=
  if has flags F_SAVE then
    [Step.swiper_request_metadata, Step.cleardir s_path, Step.swiper_save_metadata,
      Step.swiper_render_frames]
  else []

/-- The steps of `main` for `-a` once the cache, if any, is set up. -/
def run_steps (flags : Nat) : List Step :=
  [Step.swiper_load_metadata, Step.swiper_retrieve_image_names]
    ++ (if has flags F_DAEMONIZE then [Step.daemon] else [])
    ++ [Step.swiper_execute_wallpaper, Step.swiper_shutdown]

/-- `main`, from the test of the flags that `swiper_parse_opts` returned on (a negative
result, for a duplicate option, has ended the run before), for the saved-frames directory
`s_path`.  The steps other than `mount` are taken to succeed. -/
def main (flags : Nat) (s_path : CStr) (sys : Sys) : MainResult :=
  if flags = 0 then ⟨[], some "unrecognised option or missing argument."⟩
  else match swiper_safety_protocol flags sys with
  | some msg => ⟨[], some msg⟩
  | none =>
    if has flags F_INSPECT then ⟨[Step.swiper_request_metadata, Step.swiper_shutdown], none⟩
    else if has flags F_RUN then
      if has flags F_CACHE then
        if sys.mount_ok then
          ⟨save_steps flags s_path
            ++ [Step.rolling_umount TFSMP, Step.mount TFSMP, Step.cleardir TFSMP,
              Step.copydir TFSMP s_path]
            ++ run_steps flags, none⟩
        else
          ⟨save_steps flags s_path ++ [Step.rolling_umount TFSMP, Step.mount TFSMP],
            some "failed to mount tmpfs at /mnt/swiper"⟩
      else ⟨save_steps flags s_path ++ run_steps flags, none⟩
    else ⟨save_steps flags s_path ++ [Step.swiper_shutdown], none⟩

/-! ## Concrete inputs -/

/-- A saved-frames directory: `.`, `..`, the metadata file and 300 frames of 10 MB each,
3,000,008,232 bytes in all. -/
def big_frame_dir : List Dirent :=
  [⟨".".toList, DType.DT_DIR, 4096⟩, ⟨"..".toList, DType.DT_DIR, 4096⟩,
    ⟨".metadata".toList, DType.DT_REG, 40⟩]
  ++ (List.range' 1 300).map (fun i => ⟨fmt_04d i ++ ".png".toList, DType.DT_REG, 10000000⟩)

/-- A system on which `swiper -a -c` is run by the superuser over `big_frame_dir`, no other
instance running, and `size` starting from 0. -/
def big_sys : Sys :=
  { nproc := 1, v_path := [], v_stat := false, rfps := [], pfps := [],
    s_dir := big_frame_dir, uid := 0, size0 := 0, mount_ok := true }

/-- The total byte size of the entries of a directory. -/
def total_size (ents : List Dirent) : Nat := (ents.map (fun ent => ent.st_size)).sum

/-- The locals of `swiper_save_action` when the memory they are given is zeroed. -/
def zero_init : SaveInit := ⟨[], 0, 0, 0⟩

/-- A stream that ends after one progress line: 5 frames out of the 10 expected. -/
def short_stream : List Char :=
  "ffmpeg version 4.4\nframe=    5 fps=0.0 q=2.0 size=N/A\r".toList

/-- A stream whose first line is 255 bytes of text ended by a newline as its 256th byte,
followed by a progress line. -/
def full_line_stream : List Char :=
  List.replicate 255 'a' ++ '\n' :: "frame=    5 fps=0.0 q=2.0 size=N/A\r".toList

/-- A run in which the display of each frame takes one millisecond of processor time and
the signal arrives while the first frame is displayed. -/
def one_frame_env : SchedEnv :=
  { term := fun k => decide (2 ≤ k), clock := fun k => if k % 2 = 0 then 0 else 1000 }

/-- A run in which the display of the second frame takes 48 ms of processor time, the
others 1 ms and 10 µs, and no signal arrives during the first pass. -/
def lag_env : SchedEnv :=
  { term := fun k => decide (4 ≤ k),
    clock := fun k => [0, 1000, 2000, 50000, 60000, 60010].getD k 0 }

/-- A run at a slow rate in which the display of the second frame takes 2.5 s of processor
time, that of the first and of the third 1 ms, and no signal arrives during the first
pass. -/
def slow_lag_env : SchedEnv :=
  { term := fun k => decide (4 ≤ k),
    clock := fun k => [0, 1000, 2000, 2502000, 2503000, 2504000].getD k 0 }

/-- Three frames. -/
def three_files : List CStr := ["0001.jpg".toList, "0002.jpg".toList, "0003.jpg".toList]

/-- A run in which the signal arrives during the second frame of the second pass (`term`
is read as set from its eighth read on), each display taking 1 ms. -/
def cancel_env : SchedEnv :=
  { term := fun k => decide (7 ≤ k), clock := fun k => 500 * k }

/-! ## `rolling_umount` -/

/-- An entry of the mount table (`struct mntent`). -/
structure Mntent where
  mnt_fsname : CStr
  mnt_dir : CStr
  mnt_type : CStr
deriving DecidableEq, Repr

/-- The call `umount(target)` against the mount table, the filesystems mounted last coming
last: the filesystem mounted last at `target` is released; when none is mounted there the
call fails and the table is as before.  A mounted filesystem is taken not to be busy. -/
def umount (target : CStr) : List Mntent → List Mntent
  | [] => []
  | me :: rest =>
    if me.mnt_dir == target && !(rest.any (fun m => m.mnt_dir == target)) then rest
    else me :: umount target rest

/-- The loop `while((me = getmntent(ptr)) != NULL)` of `rolling_umount`: `entries` are
the entries still to be read, `table` is the mount table, `calls` counts the calls of
`umount` made so far. -/
def rolling_umount_loop (mp : CStr) : List Mntent → List Mntent → Nat → List Mntent × Nat
  | [], table, calls => (table, calls)
  | me :: entries, table, calls =>
    if mp == me.mnt_dir then rolling_umount_loop mp entries (umount mp table) (calls + 1)
    else rolling_umount_loop mp entries table calls

/-- `rolling_umount(mp)` run against the mount table `table`: the mount table afterwards
and the number of calls of `umount` made.  The entries read from `/etc/mtab` are those of
the table at the time of the call. -/
def rolling_umount (mp : CStr) (table : List Mntent) : List Mntent × Nat :=
  rolling_umount_loop mp table table 0

/-- The call `mount("tmpfs", target, "tmpfs", 0, "size=1G,mode=0777")` when it succeeds. -/
def mount (target : CStr) (table : List Mntent) : List Mntent :=
  table ++ [⟨"tmpfs".toList, target, "tmpfs".toList⟩]

/-- The cache provisioning of `main`, as far as the mount table goes:
`rolling_umount(TFSMP)` followed by the `mount` of the memory-backed area. -/
def provision (table : List Mntent) : List Mntent :=
  mount TFSMP (rolling_umount TFSMP table).1

/-- The filesystems mounted at the mount point `mp`. -/
def mounted_at (mp : CStr) (table : List Mntent) : List Mntent :=
  table.filter (fun me => me.mnt_dir == mp)

/-! ## `filename` -/

/-- The loop `for(i = 0; i < strlen(filepath); ++i)` of `filename`: the final values of `i`
and `n`. -/
def filename_loop : CStr → Nat → Nat → Nat × Nat
  | [], i, n => (i, n)
  | c :: cs, i, n => filename_loop cs (i + 1) (if c == '/' then i + 1 else n)

/-- `filename(filepath)`: `none` for `NULL`. -/
def filename (filepath : CStr) : Option CStr :=
  if (filename_loop filepath 0 0).2 = (filename_loop filepath 0 0).1 then none
  else if (filename_loop filepath 0 0).2 = 0 then none
  else some ((filepath.drop (filename_loop filepath 0 0).2).take FILE_LEN)

/-- The final component of a path, as the help text uses paths: the text after the last
`/`, or the whole path when it holds none, cut to `FILE_LEN` bytes. -/
def final_component (filepath : CStr) : CStr :=
  ((filepath.reverse.takeWhile (fun c => c != '/')).reverse).take FILE_LEN

/-- An entry of a directory is visible when its name does not start with a dot. -/
def visible (ent : Dirent) : Bool := deref ent.d_name != '.'

/-- A saved-frames directory with a single frame. -/
def one_frame_dir : List Dirent :=
  [⟨".".toList, DType.DT_DIR, 4096⟩, ⟨"..".toList, DType.DT_DIR, 4096⟩,
    ⟨".metadata".toList, DType.DT_REG, 40⟩, ⟨"0001.jpg".toList, DType.DT_REG, 100000⟩]

/-- A system on which `swiper -a` is run over `one_frame_dir`. -/
def one_frame_sys : Sys :=
  { nproc := 1, v_path := [], v_stat := false, rfps := [], pfps := [],
    s_dir := one_frame_dir, uid := 1000, size0 := 0, mount_ok := true }

/-- A system on which `swiper -s video.mp4 -r abc` is run. -/
def bad_rate_sys : Sys :=
  { nproc := 1, v_path := "video.mp4".toList, v_stat := true, rfps := "abc".toList, pfps := [],
    s_dir := [⟨".".toList, DType.DT_DIR, 4096⟩, ⟨"..".toList, DType.DT_DIR, 4096⟩],
    uid := 1000, size0 := 0, mount_ok := true }

/-- A directory whose pictures are not named by ordinals. -/
def holiday_dir : List Dirent :=
  [⟨".".toList, DType.DT_DIR, 4096⟩, ⟨"..".toList, DType.DT_DIR, 4096⟩,
    ⟨".metadata".toList, DType.DT_REG, 40⟩, ⟨"beach.png".toList, DType.DT_REG, 100000⟩,
    ⟨"sunset.png".toList, DType.DT_REG, 100000⟩, ⟨"tower.png".toList, DType.DT_REG, 100000⟩]

/-- A mount table with two memory-backed areas stacked at the mount point. -/
def stacked_table : List Mntent :=
  [⟨"/dev/sda1".toList, "/".toList, "ext4".toList⟩,
    ⟨"tmpfs".toList, TFSMP, "tmpfs".toList⟩,
    ⟨"proc".toList, "/proc".toList, "proc".toList⟩,
    ⟨"tmpfs".toList, TFSMP, "tmpfs".toList⟩]

/-! ## Decimal conversions -/

theorem toDigitsCore_eq_digits (fuel : Nat) : ∀ (n : Nat) (ds : List Char), n < fuel → 0 < n →
    Nat.toDigitsCore 10 fuel n ds = ((Nat.digits 10 n).reverse.map Nat.digitChar) ++ ds := by
  induction fuel with
  | zero => intro n ds h; omega
  | succ fuel ih =>
    intro n ds hlt hpos
    rw [Nat.toDigitsCore]
    have hd : Nat.digits 10 n = (n % 10) :: Nat.digits 10 (n / 10) :=
      Nat.digits_def' (by norm_num) hpos
    by_cases h0 : n / 10 = 0
    · simp [h0, hd]
    · have hlt2 : n / 10 < fuel := by omega
      have hpos2 : 0 < n / 10 := Nat.pos_of_ne_zero h0
      simp only [h0, if_false]
      rw [ih (n / 10) _ hlt2 hpos2, hd]
      simp

theorem fmt_d_eq_digits (n : Nat) (hpos : 0 < n) :
    fmt_d n = (Nat.digits 10 n).reverse.map Nat.digitChar := by
  unfold fmt_d Nat.toDigits
  rw [toDigitsCore_eq_digits (n + 1) n [] (by omega) hpos]
  simp

theorem fmt_d_zero : fmt_d 0 = ['0'] := by decide

theorem isdigit_digitChar (d : Nat) (h : d < 10) :
    isdigit (Nat.digitChar d) = true ∧ digit_val (Nat.digitChar d) = d := by
  interval_cases d <;> decide

theorem scan_digits_append (ds rest : List Char) (acc : Nat)
    (hds : ∀ c ∈ ds, isdigit c = true) (hrest : isdigit (deref rest) = false) :
    scan_digits (ds ++ rest) acc = ds.foldl (fun a c => a * 10 + digit_val c) acc := by
  induction ds generalizing acc with
  | nil =>
    cases rest with
    | nil => simp [scan_digits]
    | cons c cs =>
      simp only [deref, List.headD_cons] at hrest
      simp [scan_digits, hrest]
  | cons d ds ih =>
    have hd : isdigit d = true := hds d (by simp)
    simp only [List.cons_append, scan_digits, hd, if_true, List.foldl_cons]
    exact ih _ (fun c hc => hds c (by simp [hc]))

theorem foldl_digits_value (L : List Nat) (hL : ∀ d ∈ L, d < 10) (acc : Nat) :
    (L.reverse.map Nat.digitChar).foldl (fun a c => a * 10 + digit_val c) acc
      = acc * 10 ^ L.length + Nat.ofDigits 10 L := by
  induction L generalizing acc with
  | nil => simp
  | cons d L ih =>
    have hd := (isdigit_digitChar d (hL d (by simp))).2
    simp only [List.reverse_cons, List.map_append, List.map_cons, List.map_nil, List.foldl_append,
      List.foldl_cons, List.foldl_nil, List.length_cons, Nat.ofDigits_cons]
    rw [ih (fun x hx => hL x (by simp [hx])), hd]
    ring

theorem fmt_d_all_digits (n : Nat) : ∀ c ∈ fmt_d n, isdigit c = true := by
  rcases Nat.eq_zero_or_pos n with h | h
  · subst h; decide
  · rw [fmt_d_eq_digits n h]
    intro c hc
    simp only [List.mem_map, List.mem_reverse] at hc
    obtain ⟨d, hd, rfl⟩ := hc
    exact (isdigit_digitChar d (Nat.digits_lt_base (by norm_num) hd)).1

theorem scan_digits_fmt_d (n : Nat) (rest : List Char) (hrest : isdigit (deref rest) = false) :
    scan_digits (fmt_d n ++ rest) 0 = n := by
  rw [scan_digits_append _ _ _ (fmt_d_all_digits n) hrest]
  rcases Nat.eq_zero_or_pos n with h | h
  · subst h; decide
  · rw [fmt_d_eq_digits n h, foldl_digits_value _ (fun d hd => Nat.digits_lt_base (by norm_num) hd)]
    simp [Nat.ofDigits_digits]

theorem fmt_d_injective (i j : Nat) (h : fmt_d i = fmt_d j) : i = j := by
  have hi := scan_digits_fmt_d i [] (by decide)
  have hj := scan_digits_fmt_d j [] (by decide)
  rw [h] at hi
  omega

theorem fmt_d_length_mono (i k : Nat) (hik : i ≤ k) : (fmt_d i).length ≤ (fmt_d k).length := by
  rcases Nat.eq_zero_or_pos i with h | h
  · subst h
    rcases Nat.eq_zero_or_pos k with h' | h'
    · subst h'; exact le_refl _
    · rw [fmt_d_eq_digits k h', fmt_d_zero]
      simp only [List.length_map, List.length_reverse, List.length_singleton]
      exact List.length_pos.mpr (Nat.digits_ne_nil_iff_ne_zero.mpr (by omega))
  · rw [fmt_d_eq_digits i h, fmt_d_eq_digits k (by omega)]
    simpa using Nat.le_digits_len_le 10 i k hik

theorem count_eq_countP (ents : List Dirent) :
    lateral_dir_visfile_count ents = ents.countP is_visfile := by
  have h : ∀ (l : List Dirent) (acc : Nat),
      l.foldl (fun n ent => if is_visfile ent then n + 1 else n) acc
        = acc + l.countP is_visfile := by
    intro l
    induction l with
    | nil => intro acc; simp
    | cons e l ih =>
      intro acc
      rw [List.foldl_cons, ih]
      by_cases he : is_visfile e = true
      · simp [he, List.countP_cons]; omega
      · simp [he, List.countP_cons]
  simpa using h ents 0

theorem ordinal_path_injective (dir ext : CStr) (i j : Nat)
    (h : ordinal_path dir i ext = ordinal_path dir j ext) : i = j := by
  unfold ordinal_path at h
  have h1 := List.append_cancel_left h
  have h2 : fmt_d i ++ '.' :: ext = fmt_d j ++ '.' :: ext := by simpa using h1
  exact fmt_d_injective i j (List.append_cancel_right h2)

theorem shave_path_eq_ordinal (s_path format : CStr) (i k : Nat) (hik : i ≤ k)
    (hfit : s_path.length + (fmt_d k).length + format.length + 2 ≤ PATH_LEN + 7) :
    shave_path s_path i format = ordinal_path s_path i format := by
  have hlen := fmt_d_length_mono i k hik
  unfold shave_path snprintf ordinal_path
  have hassoc : s_path ++ '/' :: fmt_d i ++ '.' :: format
      = s_path ++ '/' :: (fmt_d i ++ '.' :: format) := by simp
  rw [hassoc]
  apply List.take_of_length_le
  simp only [List.length_append, List.length_cons]
  omega

theorem remove_eq_none (dirpath : CStr) (ents : List Dirent) (p : CStr)
    (h : ¬ ∃ ent ∈ ents, entry_path dirpath ent = p) : remove dirpath ents p = none := by
  unfold remove
  have : ents.any (fun ent => entry_path dirpath ent == p) = false := by
    rw [List.any_eq_false]
    intro ent hent
    simp only [beq_iff_eq]
    exact fun heq => h ⟨ent, hent, heq⟩
  simp [this]

theorem remove_eq_some (dirpath : CStr) (ents : List Dirent) (p : CStr)
    (h : ∃ ent ∈ ents, entry_path dirpath ent = p) :
    remove dirpath ents p = some (ents.filter (fun ent => !(entry_path dirpath ent == p))) := by
  unfold remove
  have : ents.any (fun ent => entry_path dirpath ent == p) = true := by
    rw [List.any_eq_true]
    obtain ⟨ent, hent, heq⟩ := h
    exact ⟨ent, hent, by simp [heq]⟩
  simp [this]

theorem mem_filter_ne (dirpath : CStr) (ents : List Dirent) (p q : CStr) (hpq : q ≠ p) :
    (∃ ent ∈ ents.filter (fun ent => !(entry_path dirpath ent == p)), entry_path dirpath ent = q)
      ↔ ∃ ent ∈ ents, entry_path dirpath ent = q := by
  constructor
  · rintro ⟨ent, hent, heq⟩
    exact ⟨ent, (List.mem_filter.mp hent).1, heq⟩
  · rintro ⟨ent, hent, heq⟩
    refine ⟨ent, List.mem_filter.mpr ⟨hent, ?_⟩, heq⟩
    simp [heq, hpq]

/-- The paths removed by the shaving loop are always an initial run of the ordinals it
walks through. -/
theorem shave_loop_removed (s_path format : CStr) : ∀ (rem i : Nat) (st : ShaveState),
    ∃ m, m ≤ rem ∧ (shave_loop s_path format rem i st).removed
      = st.removed ++ (List.range' i m).map (fun j => shave_path s_path j format) := by
  intro rem
  induction rem with
  | zero => intro i st; exact ⟨0, le_refl _, by simp [shave_loop]⟩
  | succ rem ih =>
    intro i st
    rw [shave_loop]
    cases hrm : remove s_path st.ents (shave_path s_path i format) with
    | none => exact ⟨0, Nat.zero_le _, by simp⟩
    | some ents =>
      obtain ⟨m, hm, heq⟩ := ih (i + 1)
        { st with ents := ents, removed := st.removed ++ [shave_path s_path i format] }
      refine ⟨m + 1, by omega, ?_⟩
      simp only [heq]
      simp [List.range'_succ]

/-- When every file the loop asks for is there, the loop removes them all and does not
die. -/
theorem shave_loop_all_present (s_path format : CStr) : ∀ (rem i : Nat) (st : ShaveState),
    st.died = none →
    (∀ j, i ≤ j → j < i + rem → shave_path s_path j format = ordinal_path s_path j format) →
    (∀ j, i ≤ j → j < i + rem →
      ∃ ent ∈ st.ents, entry_path s_path ent = ordinal_path s_path j format) →
    (shave_loop s_path format rem i st).died = none ∧
    (shave_loop s_path format rem i st).removed
      = st.removed ++ (List.range' i rem).map (fun j => ordinal_path s_path j format) := by
  intro rem
  induction rem with
  | zero => intro i st hd _ _; simp [shave_loop, hd]
  | succ rem ih =>
    intro i st hd hpath hfiles
    rw [shave_loop]
    have hp := hpath i (le_refl _) (by omega)
    rw [hp, remove_eq_some s_path st.ents _ (hfiles i (le_refl _) (by omega))]
    simp only
    have := ih (i + 1)
      { st with
        ents := st.ents.filter (fun ent => !(entry_path s_path ent == ordinal_path s_path i format))
        removed := st.removed ++ [ordinal_path s_path i format] }
      hd (fun j h1 h2 => hpath j (by omega) (by omega))
      (fun j h1 h2 => by
        have hne : ordinal_path s_path j format ≠ ordinal_path s_path i format := by
          intro h
          have := ordinal_path_injective s_path format j i h
          omega
        exact (mem_filter_ne s_path st.ents _ _ hne).mpr (hfiles j (by omega) (by omega)))
    refine ⟨this.1, ?_⟩
    rw [this.2]
    simp [List.range'_succ]

/-- When one of the files the loop asks for is missing, the loop dies. -/
theorem shave_loop_missing (s_path format : CStr) : ∀ (rem i : Nat) (st : ShaveState),
    (∀ j, i ≤ j → j < i + rem → shave_path s_path j format = ordinal_path s_path j format) →
    (∃ j, i ≤ j ∧ j < i + rem ∧
      ¬ ∃ ent ∈ st.ents, entry_path s_path ent = ordinal_path s_path j format) →
    (shave_loop s_path format rem i st).died = some "fatal bug; unrecognised file path" := by
  intro rem
  induction rem with
  | zero => intro i st _ ⟨j, h1, h2, _⟩; omega
  | succ rem ih =>
    intro i st hpath ⟨j, h1, h2, hmiss⟩
    rw [shave_loop]
    have hp := hpath i (le_refl _) (by omega)
    rw [hp]
    by_cases hi : ∃ ent ∈ st.ents, entry_path s_path ent = ordinal_path s_path i format
    · rw [remove_eq_some s_path st.ents _ hi]
      simp only
      have hji : j ≠ i := by
        rintro rfl
        exact hmiss hi
      apply ih (i + 1) _ (fun j h1 h2 => hpath j (by omega) (by omega))
      refine ⟨j, by omega, by omega, ?_⟩
      have hne : ordinal_path s_path j format ≠ ordinal_path s_path i format := by
        intro h
        exact hji (ordinal_path_injective s_path format j i h)
      intro hcon
      exact hmiss ((mem_filter_ne s_path st.ents _ _ hne).mp hcon)
    · rw [remove_eq_none s_path st.ents _ hi]

theorem fmt_d_ne_nil (i : Nat) : fmt_d i ≠ [] := by
  intro h
  have := scan_digits_fmt_d i [] (by decide)
  have h0 := scan_digits_fmt_d 0 [] (by decide)
  rw [h] at this
  rw [List.append_nil] at this h0
  have hi : i = 0 := by
    simp only [scan_digits] at this
    omega
  subst hi
  exact absurd h (by decide)

theorem deref_fmt_04d_isdigit (i : Nat) (rest : CStr) :
    isdigit (deref (fmt_04d i ++ rest)) = true := by
  unfold fmt_04d
  cases hpad : 4 - (fmt_d i).length with
  | zero =>
    cases hd : fmt_d i with
    | nil => exact absurd hd (fmt_d_ne_nil i)
    | cons c cs =>
      simp only [List.replicate_zero, List.nil_append, List.cons_append, deref, List.headD_cons]
      exact fmt_d_all_digits i c (by simp [hd])
  | succ m =>
    simp only [List.replicate_succ, List.cons_append, deref, List.headD_cons]
    decide

theorem is_visfile_frame_ent (i : Nat) (format : CStr) : is_visfile (frame_ent i format) = true := by
  unfold is_visfile frame_ent
  have h := deref_fmt_04d_isdigit i ('.' :: format)
  have hne : deref (fmt_04d i ++ '.' :: format) ≠ '.' := by
    intro heq
    rw [heq] at h
    exact absurd h (by decide)
  simp [hne]

theorem count_frame_dir (k : Nat) (format : CStr) :
    lateral_dir_visfile_count (frame_dir k format) = k := by
  rw [count_eq_countP]
  unfold frame_dir
  rw [List.countP_eq_length.mpr]
  · simp
  · intro ent hent
    obtain ⟨i, _, rfl⟩ := List.mem_map.mp hent
    exact is_visfile_frame_ent i format

theorem fmt_04d_length (i : Nat) (hi : i ≤ 9999) : (fmt_04d i).length = 4 := by
  have h := fmt_d_length_mono i 9999 hi
  have h4 : (fmt_d 9999).length = 4 := by decide
  unfold fmt_04d
  simp only [List.length_append, List.length_replicate]
  omega

theorem count_stray_dir : lateral_dir_visfile_count stray_dir = 10000 := by
  rw [count_eq_countP]
  unfold stray_dir
  rw [List.countP_append, ← count_eq_countP, count_frame_dir]
  decide

theorem stray_dir_missing (dirpath : CStr) :
    ¬ ∃ ent ∈ stray_dir, entry_path dirpath ent = ordinal_path dirpath 10000 "jpg".toList := by
  rintro ⟨ent, hent, heq⟩
  unfold entry_path ordinal_path at heq
  have h1 := List.append_cancel_left heq
  have h2 : ent.d_name = fmt_d 10000 ++ '.' :: "jpg".toList := by simpa using h1
  have hlen : ent.d_name.length = 9 := by rw [h2]; decide
  unfold stray_dir frame_dir at hent
  rcases List.mem_append.mp hent with h | h
  · obtain ⟨i, hi, rfl⟩ := List.mem_map.mp h
    have hi2 : i ≤ 9999 := by
      have := List.mem_range'.mp hi
      omega
    have := fmt_04d_length i hi2
    simp only [frame_ent, List.length_append, List.length_cons, this] at hlen
    simp at hlen
  · simp only [List.mem_singleton] at h
    subst h
    exact absurd h2 (by decide)

theorem retrieve_small (dirpath format : CStr) (ents : List Dirent)
    (h : ¬ 9999 < lateral_dir_visfile_count ents) :
    swiper_retrieve_image_names dirpath format ents
      = Except.ok ⟨lateral_dir_visfile_count ents, name_loop format ents 0 [], ents, []⟩ := by
  unfold swiper_retrieve_image_names
  exact if_neg h

theorem retrieve_big_ok (dirpath format : CStr) (ents : List Dirent)
    (h : 9999 < lateral_dir_visfile_count ents)
    (hd : (swiper_shave_s_path dirpath (lateral_dir_visfile_count ents) format ents).died = none) :
    swiper_retrieve_image_names dirpath format ents
      = Except.ok ⟨9999,
          name_loop format
            (swiper_shave_s_path dirpath (lateral_dir_visfile_count ents) format ents).ents 0 [],
          (swiper_shave_s_path dirpath (lateral_dir_visfile_count ents) format ents).ents,
          (swiper_shave_s_path dirpath (lateral_dir_visfile_count ents) format ents).removed⟩ := by
  unfold swiper_retrieve_image_names
  rw [if_pos h]
  simp only [hd]

theorem retrieve_big_died (dirpath format : CStr) (ents : List Dirent) (msg : String)
    (h : 9999 < lateral_dir_visfile_count ents)
    (hd : (swiper_shave_s_path dirpath (lateral_dir_visfile_count ents) format ents).died
      = some msg) :
    swiper_retrieve_image_names dirpath format ents = Except.error msg := by
  unfold swiper_retrieve_image_names
  rw [if_pos h]
  simp only [hd]

/-- The shaving removes every file it asks for when all of them are there. -/
theorem shave_all_present (dirpath format : CStr) (ents : List Dirent) (k : Nat)
    (hbig : 9999 < k)
    (hpath : ∀ j, 10000 ≤ j → j < 10000 + (k + 1 - 10000) →
      shave_path dirpath j format = ordinal_path dirpath j format)
    (hfiles : ∀ i, 10000 ≤ i → i ≤ k →
      ∃ ent ∈ ents, entry_path dirpath ent = ordinal_path dirpath i format) :
    (swiper_shave_s_path dirpath k format ents).died = none
    ∧ (swiper_shave_s_path dirpath k format ents).removed
      = (List.range' 10000 (k - 9999)).map (fun i => ordinal_path dirpath i format) := by
  have hsp := shave_loop_all_present dirpath format (k + 1 - 10000) 10000 ⟨ents, [], none⟩ rfl
    hpath (fun j h1 h2 => hfiles j h1 (by omega))
  have hrem : k + 1 - 10000 = k - 9999 := by omega
  unfold swiper_shave_s_path
  rw [hrem] at hsp ⊢
  exact ⟨hsp.1, hsp.2.trans (List.nil_append _)⟩

/-- The result of `swiper_retrieve_image_names` over more than 9999 files, for a shaving
that ended in the state `X` without dying. -/
theorem retrieve_big_spec (dirpath format : CStr) (ents : List Dirent) (X : ShaveState)
    (removed : List CStr) (k : Nat)
    (hres : swiper_retrieve_image_names dirpath format ents
      = Except.ok ⟨9999, name_loop format X.ents 0 [], X.ents, X.removed⟩)
    (hbig : 9999 < k)
    (hremoved : X.removed = removed)
    (hnot : ∀ i, 1 ≤ i → i ≤ 9999 → ordinal_path dirpath i format ∉ removed) :
    ∃ r, swiper_retrieve_image_names dirpath format ents = Except.ok r
      ∧ r.nfiles = min k 9999 ∧ r.removed = removed
      ∧ ∀ i, 1 ≤ i → i ≤ 9999 → ordinal_path dirpath i format ∉ r.removed := by
  refine ⟨_, hres, ?_, hremoved, ?_⟩
  · show 9999 = min k 9999
    exact (Nat.min_eq_right (Nat.le_of_lt hbig)).symm
  · intro i h1 h2 hmem
    have hmem2 : ordinal_path dirpath i format ∈ X.removed := hmem
    rw [hremoved] at hmem2
    exact hnot i h1 h2 hmem2

/-- Claim C1, as amended: let `k` be the number of first-layer, regular, non-hidden files
of the directory, and let the paths built by `swiper_shave_s_path` fit its buffer.  When
every file `<dir>/<i>.<ext>` with `i` in `10000..k` is in the directory,
`swiper_retrieve_image_names` returns, reports `min(k, 9999)` entries, and has removed
exactly these files, in order, none of them of an ordinal in `1..9999`.  When one of them
is missing it ends with the fatal error instead.  In both cases every path removed is
`<dir>/<i>.<ext>` for some `i` in `10000..k`. -/
theorem C1_retrieve_count_and_shave (dirpath format : CStr) (ents : List Dirent)
    (hfit : 9999 < lateral_dir_visfile_count ents →
      dirpath.length + (fmt_d (lateral_dir_visfile_count ents)).length + format.length + 2
        ≤ PATH_LEN + 7) :
    ((∀ i, 10000 ≤ i → i ≤ lateral_dir_visfile_count ents →
        ∃ ent ∈ ents, entry_path dirpath ent = ordinal_path dirpath i format) →
      ∃ r, swiper_retrieve_image_names dirpath format ents = Except.ok r
        ∧ r.nfiles = min (lateral_dir_visfile_count ents) 9999
        ∧ r.removed = (List.range' 10000 (lateral_dir_visfile_count ents - 9999)).map
            (fun i => ordinal_path dirpath i format)
        ∧ ∀ i, 1 ≤ i → i ≤ 9999 → ordinal_path dirpath i format ∉ r.removed)
    ∧ ((¬ ∀ i, 10000 ≤ i → i ≤ lateral_dir_visfile_count ents →
        ∃ ent ∈ ents, entry_path dirpath ent = ordinal_path dirpath i format) →
      swiper_retrieve_image_names dirpath format ents
        = Except.error "fatal bug; unrecognised file path")
    ∧ (∀ p ∈ (swiper_shave_s_path dirpath (lateral_dir_visfile_count ents) format ents).removed,
        ∃ i, 10000 ≤ i ∧ i ≤ lateral_dir_visfile_count ents
          ∧ p = ordinal_path dirpath i format) := by
  have hpath : 9999 < lateral_dir_visfile_count ents → ∀ j, 10000 ≤ j →
      j < 10000 + (lateral_dir_visfile_count ents + 1 - 10000) →
      shave_path dirpath j format = ordinal_path dirpath j format := by
    intro hbig j _ hj
    exact shave_path_eq_ordinal dirpath format j _ (by omega) (hfit hbig)
  refine ⟨?_, ?_, ?_⟩
  · intro hfiles
    by_cases hbig : 9999 < lateral_dir_visfile_count ents
    · have hsp := shave_all_present dirpath format ents _ hbig (hpath hbig) hfiles
      refine retrieve_big_spec dirpath format ents _ _ _
        (retrieve_big_ok dirpath format ents hbig hsp.1) hbig hsp.2 ?_
      intro i h1 h2 hmem
      obtain ⟨j, hj, hjeq⟩ := List.mem_map.mp hmem
      have hj2 := (List.mem_range'_1.mp hj).1
      have := ordinal_path_injective dirpath format j i hjeq
      omega
    · refine ⟨_, retrieve_small dirpath format ents hbig, ?_, ?_, ?_⟩
      · show lateral_dir_visfile_count ents = min (lateral_dir_visfile_count ents) 9999
        exact (Nat.min_eq_left (Nat.le_of_not_lt hbig)).symm
      · show [] = _
        have h0 : lateral_dir_visfile_count ents - 9999 = 0 := by omega
        rw [h0]
        exact rfl
      · intro i _ _ hmem
        exact absurd hmem (List.not_mem_nil _)
  · intro hmiss
    have hbig : 9999 < lateral_dir_visfile_count ents := by
      by_contra hsmall
      apply hmiss
      intro i h1 h2
      omega
    have hex : ∃ j, 10000 ≤ j ∧ j < 10000 + (lateral_dir_visfile_count ents + 1 - 10000) ∧
        ¬ ∃ ent ∈ ents, entry_path dirpath ent = ordinal_path dirpath j format := by
      by_contra hcon
      apply hmiss
      intro i h1 h2
      by_contra hno
      exact hcon ⟨i, h1, by omega, hno⟩
    have hd := shave_loop_missing dirpath format (lateral_dir_visfile_count ents + 1 - 10000)
      10000 ⟨ents, [], none⟩ (hpath hbig) hex
    rw [← swiper_shave_s_path] at hd
    exact retrieve_big_died dirpath format ents _ hbig hd
  · intro p hp
    unfold swiper_shave_s_path at hp
    obtain ⟨m, hm, heq⟩ := shave_loop_removed dirpath format
      (lateral_dir_visfile_count ents + 1 - 10000) 10000 ⟨ents, [], none⟩
    rw [heq] at hp
    obtain ⟨j, hj, rfl⟩ := List.mem_map.mp (List.mem_append.mp hp |>.resolve_left
      (List.not_mem_nil _))
    have hj2 := List.mem_range'_1.mp hj
    have hbig : 9999 < lateral_dir_visfile_count ents := by omega
    exact ⟨j, hj2.1, by omega,
      shave_path_eq_ordinal dirpath format j _ (by omega) (hfit hbig)⟩

/-- Claim C1 fails as stated: a directory with the frames `0001.jpg` to `9999.jpg` and one
more picture holds 10000 first-layer, regular, non-hidden files, and
`swiper_retrieve_image_names` ends with a fatal error on it instead of reporting 9999
entries. -/
theorem C1_counterexample :
    lateral_dir_visfile_count stray_dir = 10000
    ∧ swiper_retrieve_image_names "/home/u/.swiper".toList "jpg".toList stray_dir
        = Except.error "fatal bug; unrecognised file path" := by
  have hbig : 9999 < lateral_dir_visfile_count stray_dir := by
    rw [count_stray_dir]
    exact Nat.lt_succ_self 9999
  have hfit : "/home/u/.swiper".toList.length
      + (fmt_d (lateral_dir_visfile_count stray_dir)).length
      + "jpg".toList.length + 2 ≤ PATH_LEN + 7 := by
    rw [count_stray_dir]
    decide
  refine ⟨count_stray_dir, ?_⟩
  apply retrieve_big_died _ _ _ _ hbig
  apply shave_loop_missing
  · intro j _ hj
    exact shave_path_eq_ordinal _ _ j (lateral_dir_visfile_count stray_dir) (by omega) hfit
  · exact ⟨10000, le_refl _, by omega, stray_dir_missing _⟩

/-- Claim C1, witness: over the frames `0001.jpg` to `10001.jpg` the hypotheses of
`C1_retrieve_count_and_shave` hold, 9999 entries are reported, and the two files removed
are `10000.jpg` and `10001.jpg`. -/
theorem C1_retrieve_count_and_shave_witness :
    lateral_dir_visfile_count (frame_dir 10001 "jpg".toList) = 10001
    ∧ ∃ r, swiper_retrieve_image_names "/home/u/.swiper".toList "jpg".toList
          (frame_dir 10001 "jpg".toList) = Except.ok r
        ∧ r.nfiles = 9999
        ∧ r.removed
          = ["/home/u/.swiper/10000.jpg".toList, "/home/u/.swiper/10001.jpg".toList] := by
  have hc := count_frame_dir 10001 "jpg".toList
  have hfit : 9999 < lateral_dir_visfile_count (frame_dir 10001 "jpg".toList) →
      "/home/u/.swiper".toList.length
        + (fmt_d (lateral_dir_visfile_count (frame_dir 10001 "jpg".toList))).length
        + "jpg".toList.length + 2 ≤ PATH_LEN + 7 := by
    intro _
    rw [hc]
    decide
  have hfiles : ∀ i, 10000 ≤ i → i ≤ lateral_dir_visfile_count (frame_dir 10001 "jpg".toList) →
      ∃ ent ∈ frame_dir 10001 "jpg".toList,
        entry_path "/home/u/.swiper".toList ent
          = ordinal_path "/home/u/.swiper".toList i "jpg".toList := by
    rw [hc]
    intro i h1 h2
    refine ⟨frame_ent i "jpg".toList,
      List.mem_map.mpr ⟨i, List.mem_range'_1.mpr ⟨by omega, by omega⟩, rfl⟩, ?_⟩
    have hi : i = 10000 ∨ i = 10001 := by omega
    rcases hi with rfl | rfl <;> decide
  obtain ⟨r, hr, hn, hrem, _⟩ :=
    (C1_retrieve_count_and_shave "/home/u/.swiper".toList "jpg".toList
      (frame_dir 10001 "jpg".toList) hfit).1 hfiles
  refine ⟨hc, r, hr, ?_, ?_⟩
  · rw [hn, hc]
    decide
  · rw [hrem, hc]
    decide

/-! ## Claim C2: the cache budget -/

/-- A `die` in `swiper_safety_protocol` ends `main` before any of its steps. -/
theorem main_rejected (flags : Nat) (s_path : CStr) (sys : Sys) (msg : String)
    (h : swiper_safety_protocol flags sys = some msg) :
    (main flags s_path sys).steps = [] := by
  unfold main
  split
  · rfl
  · rw [h]

/-- Claim C2, the code at the failing input: the frame store `big_frame_dir` measures
3,000,008,232 bytes, which is above `MNT_SZ`; `lateral_dir_visfile_size` returns
-1,294,959,064 for it, `swiper_safety_protocol` returns without an error, and `main`
goes on to `rolling_umount`, `mount`, `cleardir` and `copydir`. -/
theorem C2_budget_check_wraps :
    MNT_SZ ≤ (total_size big_sys.s_dir : Int)
    ∧ lateral_dir_visfile_size big_sys.size0 big_sys.s_dir = -1294959064
    ∧ swiper_safety_protocol (F_RUN ||| F_CACHE) big_sys = none
    ∧ main (F_RUN ||| F_CACHE) "/home/u/.swiper".toList big_sys
      = ⟨[Step.rolling_umount TFSMP, Step.mount TFSMP, Step.cleardir TFSMP,
          Step.copydir TFSMP "/home/u/.swiper".toList, Step.swiper_load_metadata,
          Step.swiper_retrieve_image_names, Step.swiper_execute_wallpaper,
          Step.swiper_shutdown], none⟩ := by
  decide!

/-! ## Claims C4 to C6: `swiper_save_action` -/

/-- Claim C4, the code at the failing input: on `short_stream`, which ends after a
progress line of 5 frames out of 10, `swiper_save_action` prints 50%, reads a line of
256 bytes of value 1 from the closed pipe, and hands the `NULL` that the second `strtok`
returns to `sscanf`: the run ends in a crash, not in a forced completion at 100%. -/
theorem C4_exhausted_stream_crashes :
    (swiper_save_action id zero_init short_stream 10 100).outcome = Outcome.crashed
    ∧ (swiper_save_action id zero_init short_stream 10 100).printed.map (fun p => p.pcnt)
      = [50]
    ∧ (read_line_progress []).1 = List.replicate 256 (Char.ofNat 1)
    ∧ second_token (cstr (List.replicate 256 (Char.ofNat 1))) = none := by
  decide!

/-- The assignment `pcnt = 100.00` made when a line fills the buffer is overwritten before
`pcnt` is read: after one turn of the loop `pcnt` is the percentage of the counter, whatever
`x` was. -/
theorem forced_completion_overwritten (rnd : ℚ → ℚ) (nfr : Int) (fuel : Nat) (st : SaveState)
    (x : Nat) :
    progress_loop rnd nfr fuel { st with x := x } = progress_loop rnd nfr fuel st := by
  cases fuel with
  | zero => rfl
  | succ fuel => rfl

theorem takeWhile_append_of_all {α : Type} (p : α → Bool) (a b : List α)
    (h : ∀ x ∈ a, p x = true) : (a ++ b).takeWhile p = a ++ b.takeWhile p := by
  induction a with
  | nil => rfl
  | cons x a ih =>
    have hx : p x = true := h x (by simp)
    simp only [List.cons_append, List.takeWhile_cons, hx, if_true]
    rw [ih (fun y hy => h y (by simp [hy]))]

theorem dropWhile_append_of_all {α : Type} (p : α → Bool) (a b : List α)
    (h : ∀ x ∈ a, p x = true) : (a ++ b).dropWhile p = b.dropWhile p := by
  induction a with
  | nil => rfl
  | cons x a ih =>
    have hx : p x = true := h x (by simp)
    simp only [List.cons_append, List.dropWhile_cons, hx, if_true]
    exact ih (fun y hy => h y (by simp [hy]))

theorem isdigit_props (c : Char) (h : isdigit c = true) :
    isspace c = false ∧ c ≠ '=' ∧ c ≠ Char.ofNat 0 ∧ c ≠ '-' ∧ c ≠ '+' := by
  unfold isdigit at h
  simp only [Bool.and_eq_true, decide_eq_true_eq] at h
  refine ⟨?_, ?_, ?_, ?_, ?_⟩
  · unfold isspace
    have hne : ∀ d : Char, d.toNat < 48 → (c == d) = false := by
      intro d hd
      rw [beq_eq_false_iff_ne]
      rintro rfl
      omega
    rw [hne ' ' (by decide), hne '\t' (by decide), hne '\n' (by decide),
      hne (Char.ofNat 11) (by decide), hne (Char.ofNat 12) (by decide), hne '\r' (by decide)]
    rfl
  · rintro rfl; revert h; decide
  · rintro rfl; revert h; decide
  · rintro rfl; revert h; decide
  · rintro rfl; revert h; decide

theorem isspace_props (c : Char) (h : isspace c = true) : c ≠ '=' ∧ c ≠ Char.ofNat 0 := by
  constructor
  · rintro rfl; revert h; decide
  · rintro rfl; revert h; decide

theorem to_int32_of_small (v : Nat) (hv : v < 2 ^ 31) : to_int32 (v : Int) = (v : Int) := by
  unfold to_int32
  have h1 : (0 : Int) ≤ (v : Int) + 2 ^ 31 := by positivity
  have h2 : (v : Int) + 2 ^ 31 < 2 ^ 32 := by
    have : (v : Int) < 2 ^ 31 := by exact_mod_cast hv
    linarith
  rw [Int.emod_eq_of_lt h1 h2]
  ring

theorem strtol_of_small (v : Nat) (hv : v < 2 ^ 31) : strtol (v : Int) = (v : Int) := by
  unfold strtol
  have h1 : (v : Int) < 2 ^ 31 := by exact_mod_cast hv
  have h2 : (0 : Int) ≤ (v : Int) := Int.ofNat_nonneg v
  rw [min_eq_left (by omega), max_eq_right (by omega)]

/-- The conversion `%d` reads back a number printed in decimal, after any white space and
before any text that does not start with a digit. -/
theorem sscanf_d_fmt_d (ws rest : List Char) (v : Nat) (hws : ∀ c ∈ ws, isspace c = true)
    (hrest : isdigit (deref rest) = false) (hv : v < 2 ^ 31) :
    sscanf_d (ws ++ fmt_d v ++ rest) = some (v : Int) := by
  have hscan := scan_digits_fmt_d v rest hrest
  unfold sscanf_d
  rw [List.append_assoc, dropWhile_append_of_all isspace ws _ hws]
  cases hd : fmt_d v with
  | nil => exact absurd hd (fmt_d_ne_nil v)
  | cons c cs =>
    rw [hd] at hscan
    have hc : isdigit c = true := fmt_d_all_digits v c (by simp [hd])
    obtain ⟨hsp, _, _, hminus, hplus⟩ := isdigit_props c hc
    simp only [List.cons_append, List.dropWhile_cons, hsp, Bool.false_eq_true, if_false]
    rw [if_pos hc]
    rw [List.cons_append] at hscan
    rw [hscan, strtol_of_small v hv, to_int32_of_small v hv]

theorem cstr_append_of_all (a b : List Char) (h : ∀ c ∈ a, c ≠ Char.ofNat 0) :
    cstr (a ++ b) = a ++ cstr b := by
  unfold cstr
  exact takeWhile_append_of_all _ a b (fun c hc => by simpa using h c hc)

theorem deref_takeWhile (p : Char → Bool) (rest : List Char)
    (hrest : isdigit (deref rest) = false) : isdigit (deref (rest.takeWhile p)) = false := by
  cases rest with
  | nil => exact hrest
  | cons c cs =>
    rw [List.takeWhile_cons]
    split
    · exact hrest
    · decide

/-- The text handed to `sscanf` for a line whose first `=` is that of the marker. -/
theorem second_token_marker (pre tail : List Char) (hpre : ∀ c ∈ pre, c ≠ '=')
    (htail : tail ≠ []) (hhead : deref tail ≠ '=') :
    second_token (pre ++ MATCH_STR ++ tail) = some (tail.takeWhile (fun c => c != '=')) := by
  have hfr : ∀ c ∈ "frame".toList, (c != '=') = true := by decide
  have hne : ∀ c ∈ pre ++ "frame".toList, (c != '=') = true := by
    intro c hc
    rcases List.mem_append.mp hc with h | h
    · simpa using hpre c h
    · exact hfr c h
  have hsplit : pre ++ MATCH_STR ++ tail = (pre ++ "frame".toList) ++ '=' :: tail := by
    simp [MATCH_STR]
  have hnonempty : pre ++ "frame".toList ≠ [] := by simp
  obtain ⟨t, ts, htail2⟩ := List.exists_cons_of_ne_nil htail
  obtain ⟨a, as, hpf⟩ := List.exists_cons_of_ne_nil hnonempty
  have ht : (t == '=') = false := by
    rw [htail2] at hhead
    simpa [deref] using hhead
  have ha : (a == '=') = false := by
    have := hne a (by rw [hpf]; simp)
    simpa using this
  unfold second_token
  have h1 : strtok (pre ++ MATCH_STR ++ tail) = some (pre ++ "frame".toList, tail) := by
    unfold strtok
    rw [hsplit, hpf, List.cons_append, List.dropWhile_cons, ha]
    simp only [Bool.false_eq_true, if_false]
    rw [← List.cons_append, ← hpf, takeWhile_append_of_all _ _ _ hne,
      dropWhile_append_of_all _ _ _ hne]
    simp
  have h2 : strtok tail = some (tail.takeWhile (fun c => c != '='),
      ((tail.dropWhile (fun c => c != '=')).drop 1)) := by
    unfold strtok
    rw [htail2, List.dropWhile_cons, ht]
    rfl
  rw [h1]
  simp only
  rw [h2]

theorem deref_cstr (rest : List Char) (hrest : isdigit (deref rest) = false) :
    isdigit (deref (cstr rest)) = false := by
  unfold cstr
  exact deref_takeWhile _ _ hrest

/-- The text handed to `sscanf` for a line in which no `=` comes before the marker: the
white space and the digits that follow the marker, and what follows them up to the next
`=` or NUL. -/
theorem marker_line_token (pre ws rest : List Char) (v : Nat)
    (hpre : ∀ c ∈ pre, c ≠ '=' ∧ c ≠ Char.ofNat 0)
    (hws : ∀ c ∈ ws, isspace c = true) :
    second_token (cstr (pre ++ MATCH_STR ++ (ws ++ fmt_d v ++ rest)))
      = some (ws ++ fmt_d v ++ (cstr rest).takeWhile (fun c => c != '=')) := by
  have hmk : ∀ c ∈ MATCH_STR, c ≠ Char.ofNat 0 := by decide
  have hnul : ∀ c ∈ pre ++ MATCH_STR ++ (ws ++ fmt_d v), c ≠ Char.ofNat 0 := by
    intro c hc
    simp only [List.mem_append] at hc
    rcases hc with (h | h) | h | h
    · exact (hpre c h).2
    · exact hmk c h
    · exact (isspace_props c (hws c h)).2
    · exact (isdigit_props c (fmt_d_all_digits v c h)).2.2.1
  have hcstr : cstr (pre ++ MATCH_STR ++ (ws ++ fmt_d v ++ rest))
      = pre ++ MATCH_STR ++ (ws ++ fmt_d v ++ cstr rest) := by
    have := cstr_append_of_all (pre ++ MATCH_STR ++ (ws ++ fmt_d v)) rest hnul
    simpa [List.append_assoc] using this
  have htail : ws ++ fmt_d v ++ cstr rest ≠ [] := by
    intro h
    have := fmt_d_ne_nil v
    simp_all
  have hneq : ∀ c ∈ ws ++ fmt_d v, (c != '=') = true := by
    intro c hc
    rcases List.mem_append.mp hc with h | h
    · simpa using (isspace_props c (hws c h)).1
    · simpa using (isdigit_props c (fmt_d_all_digits v c h)).2.1
  have hhead : deref (ws ++ fmt_d v ++ cstr rest) ≠ '=' := by
    obtain ⟨d, ds, hd⟩ := List.exists_cons_of_ne_nil (fmt_d_ne_nil v)
    cases ws with
    | nil =>
      rw [hd]
      simpa [deref] using hneq d (by simp [hd])
    | cons w ws =>
      simpa [deref] using hneq w (by simp)
  rw [hcstr, second_token_marker pre _ (fun c hc => (hpre c hc).1) htail hhead,
    takeWhile_append_of_all _ _ _ hneq]

/-- Claim C5, as amended: for every line made of a text without `=` (and without NUL), the
marker `frame=`, optional white space, the decimal digits of an integer `v < 2^31` and
further text that does not start with a digit, the counter that `swiper_save_action`
extracts from the line is `v`, whatever follows the integer. -/
theorem C5_extract_frame (pre ws rest : List Char) (v : Nat) (frame0 : Int)
    (hpre : ∀ c ∈ pre, c ≠ '=' ∧ c ≠ Char.ofNat 0)
    (hws : ∀ c ∈ ws, isspace c = true)
    (hrest : isdigit (deref rest) = false)
    (hv : v < 2 ^ 31) :
    extract_frame (pre ++ MATCH_STR ++ (ws ++ fmt_d v ++ rest)) frame0 = some (v : Int) := by
  have htok := marker_line_token pre ws rest v hpre hws
  have hscan := sscanf_d_fmt_d ws ((cstr rest).takeWhile (fun c => c != '=')) v hws
    (deref_takeWhile _ _ (deref_cstr rest hrest)) hv
  unfold extract_frame
  rw [htok]
  simp only
  rw [hscan]
  rfl

/-- Claim C5, witness: a progress line as the extraction tool prints it. -/
theorem C5_extract_frame_witness :
    extract_frame "frame=  123 fps= 25 q=2.0 size=N/A time=00:00:04.92\r".toList 0
      = some 123 :=
  C5_extract_frame [] "  ".toList " fps= 25 q=2.0 size=N/A time=00:00:04.92\r".toList 123 0
    (by decide) (by decide) (by decide) (by decide)

/-- Claim C5 fails as stated: in this line the marker `frame=` is followed by white space,
the integer 10 and further fields, but another field with `=` comes first, and the counter
extracted is 25, the integer after the first `=` of the line. -/
theorem C5_counterexample :
    "fps= 25 frame=   10 q=2.0\r".toList
      = "fps= 25 ".toList ++ MATCH_STR ++ ("   ".toList ++ fmt_d 10 ++ " q=2.0\r".toList)
    ∧ strstr (cstr "fps= 25 frame=   10 q=2.0\r".toList) MATCH_STR = true
    ∧ extract_frame "fps= 25 frame=   10 q=2.0\r".toList 0 = some 25 := by
  decide

/-- A terminator among the first 255 bytes of a line ends the read before the cap: the
line read is not fatal. -/
theorem read_loop_terminated (stop : Char → Bool) : ∀ (rem : Nat) (c : Char) (line pre : List Char)
    (t : Char) (rest : List Char), stop c = false → (∀ b ∈ pre, stop b = false) → stop t = true →
    pre.length < rem →
    read_loop stop rem c line (pre ++ t :: rest) = (line ++ pre ++ [t], rest) := by
  intro rem
  induction rem with
  | zero => intro c line pre t rest _ _ _ h; omega
  | succ rem ih =>
    intro c line pre t rest hc hpre ht hlen
    rw [read_loop]
    simp only [hc, Bool.false_eq_true, if_false]
    cases pre with
    | nil =>
      simp only [List.nil_append, read_byte, List.append_nil]
      cases rem with
      | zero => rfl
      | succ rem => rw [read_loop]; simp [ht]
    | cons b pre =>
      simp only [List.cons_append, read_byte]
      rw [ih b (line ++ [b]) pre t rest (hpre b (by simp)) (fun x hx => hpre x (by simp [hx])) ht
        (by simpa using hlen)]
      simp

theorem read_line_skip_terminated (pre : List Char) (t : Char) (rest : List Char)
    (hpre : ∀ b ∈ pre, (b == '\n' || b == '\r') = false)
    (ht : (t == '\n' || t == '\r') = true) (hlen : pre.length < 256) :
    read_line_skip (pre ++ t :: rest) = (pre ++ [t], rest) := by
  unfold read_line_skip
  have h := read_loop_terminated (fun c => c == '\n' || c == '\r') len (Char.ofNat 1) [] pre t
    rest (by decide) hpre ht hlen
  rw [h]
  simp

/-- A line whose terminator is its 256th byte is read whole, and is fatal all the same:
the test `x >= len` that follows the read does not tell it from a line cut at the cap. -/
theorem skip_loop_terminator_at_cap (fuel : Nat) (long_line : List Char) (x : Nat)
    (pre : List Char) (t : Char) (rest : List Char)
    (hmark : strstr (cstr long_line) MATCH_STR = false)
    (hpre : ∀ b ∈ pre, (b == '\n' || b == '\r') = false)
    (ht : (t == '\n' || t == '\r') = true) (hlen : pre.length = 255) :
    skip_loop (fuel + 1) long_line x (pre ++ t :: rest)
      = Skip.died "unexpected ffmpeg output" := by
  rw [skip_loop, read_line_skip_terminated pre t rest hpre ht (by omega)]
  simp only [hmark, Bool.false_eq_true, if_false]
  have hl : len ≤ (pre ++ [t]).length := by
    rw [List.length_append, List.length_singleton, hlen]
    decide
  rw [if_pos hl]

/-- Claim C6, the code at the failing input: the first line of `full_line_stream` has its
newline as its 256th byte, none before, and `swiper_save_action` dies on it with
`unexpected ffmpeg output`; with the newline as the 255th byte the same run completes. -/
theorem C6_terminator_at_cap_is_fatal :
    full_line_stream.get? 255 = some '\n'
    ∧ (∀ c ∈ full_line_stream.take 255, c ≠ '\n' ∧ c ≠ '\r')
    ∧ (swiper_save_action id zero_init full_line_stream 5 100).outcome
      = Outcome.died "unexpected ffmpeg output"
    ∧ (swiper_save_action id zero_init (full_line_stream.drop 1) 5 100).outcome
      = Outcome.done := by
  decide!

/-! ## Rounding to `double` -/

theorem pow2_eq_zpow (k : Int) : pow2 k = (2 : ℚ) ^ k := by
  unfold pow2
  split
  · next h =>
    conv_rhs => rw [← Int.toNat_of_nonneg h]
    rw [zpow_natCast]
  · next h =>
    have h2 : (0 : Int) ≤ -k := by omega
    have h3 : k = -((-k).toNat : Int) := by rw [Int.toNat_of_nonneg h2]; ring
    conv_rhs => rw [h3]
    rw [zpow_neg, zpow_natCast, one_div]

theorem ilog2_loop_spec : ∀ (fuel n : Nat), 0 < n → n ≤ fuel →
    2 ^ ilog2_loop fuel n ≤ n ∧ n < 2 ^ (ilog2_loop fuel n + 1) := by
  intro fuel
  induction fuel with
  | zero => intro n h1 h2; omega
  | succ fuel ih =>
    intro n h1 h2
    rw [ilog2_loop]
    split
    · next h => simp; omega
    · next h =>
      have hn : 0 < n / 2 := Nat.div_pos (by omega) (by decide)
      have hle : n / 2 ≤ fuel := by omega
      obtain ⟨ih1, ih2⟩ := ih (n / 2) hn hle
      constructor
      · rw [pow_succ]
        omega
      · rw [pow_succ]
        omega

theorem ilog2_spec (n : Nat) (h : 0 < n) : 2 ^ ilog2 n ≤ n ∧ n < 2 ^ (ilog2 n + 1) :=
  ilog2_loop_spec n n h (le_refl n)

theorem abs_eq_natAbs_div (q : ℚ) : |q| = (q.num.natAbs : ℚ) / (q.den : ℚ) := by
  conv_lhs => rw [← Rat.num_div_den q]
  rw [abs_div, Nat.abs_cast, ← Int.cast_abs, Int.abs_eq_natAbs, Int.cast_natCast]

/-- The binary exponent brackets the value: `2^e ≤ |q| < 2^(e+1)`. -/
theorem exponent_spec (q : ℚ) (hq : q ≠ 0) :
    (2 : ℚ) ^ exponent q ≤ |q| ∧ |q| < (2 : ℚ) ^ (exponent q + 1) := by
  have hA : 0 < q.num.natAbs := Int.natAbs_pos.mpr (Rat.num_ne_zero.mpr hq)
  have hD : 0 < q.den := q.den_pos
  obtain ⟨a1, a2⟩ := ilog2_spec q.num.natAbs hA
  obtain ⟨b1, b2⟩ := ilog2_spec q.den hD
  have a1q : (2 : ℚ) ^ ilog2 q.num.natAbs ≤ (q.num.natAbs : ℚ) := by exact_mod_cast a1
  have a2q : (q.num.natAbs : ℚ) < (2 : ℚ) ^ (ilog2 q.num.natAbs + 1) := by exact_mod_cast a2
  have b1q : (2 : ℚ) ^ ilog2 q.den ≤ (q.den : ℚ) := by exact_mod_cast b1
  have b2q : (q.den : ℚ) < (2 : ℚ) ^ (ilog2 q.den + 1) := by exact_mod_cast b2
  have hDq : (0 : ℚ) < (q.den : ℚ) := by exact_mod_cast hD
  have hz : ∀ k : Int, (2 : ℚ) ^ ((ilog2 q.num.natAbs : Int) - (ilog2 q.den : Int) + k)
      = (2 : ℚ) ^ ilog2 q.num.natAbs / (2 : ℚ) ^ ilog2 q.den * (2 : ℚ) ^ k := by
    intro k
    rw [zpow_add₀ (by norm_num), zpow_sub₀ (by norm_num), zpow_natCast, zpow_natCast]
  have hp : ∀ n : Nat, (0 : ℚ) < (2 : ℚ) ^ n := fun n => by positivity
  have hupper : |q| < (2 : ℚ) ^ ((ilog2 q.num.natAbs : Int) - (ilog2 q.den : Int) + 1) := by
    rw [hz 1, abs_eq_natAbs_div, zpow_one, div_mul_eq_mul_div, div_lt_div_iff₀ hDq (hp _)]
    calc (q.num.natAbs : ℚ) * (2 : ℚ) ^ ilog2 q.den
        < (2 : ℚ) ^ (ilog2 q.num.natAbs + 1) * (2 : ℚ) ^ ilog2 q.den :=
          mul_lt_mul_of_pos_right a2q (hp _)
      _ = (2 : ℚ) ^ ilog2 q.num.natAbs * 2 * (2 : ℚ) ^ ilog2 q.den := by rw [pow_succ]
      _ ≤ (2 : ℚ) ^ ilog2 q.num.natAbs * 2 * (q.den : ℚ) :=
          mul_le_mul_of_nonneg_left b1q (by positivity)
  have hlower : (2 : ℚ) ^ ((ilog2 q.num.natAbs : Int) - (ilog2 q.den : Int) + (-1)) ≤ |q| := by
    rw [hz (-1), abs_eq_natAbs_div, zpow_neg, zpow_one, div_mul_eq_mul_div,
      div_le_div_iff₀ (hp _) hDq]
    have h2 : (q.den : ℚ) ≤ (2 : ℚ) ^ ilog2 q.den * 2 := by
      rw [← pow_succ]
      exact b2q.le
    calc (2 : ℚ) ^ ilog2 q.num.natAbs * 2⁻¹ * (q.den : ℚ)
        ≤ (2 : ℚ) ^ ilog2 q.num.natAbs * 2⁻¹ * ((2 : ℚ) ^ ilog2 q.den * 2) :=
          mul_le_mul_of_nonneg_left h2 (by positivity)
      _ = (2 : ℚ) ^ ilog2 q.num.natAbs * (2 : ℚ) ^ ilog2 q.den := by ring
      _ ≤ (q.num.natAbs : ℚ) * (2 : ℚ) ^ ilog2 q.den :=
          mul_le_mul_of_nonneg_right a1q (by positivity)
  unfold exponent
  rw [pow2_eq_zpow]
  split
  · next h => exact ⟨h, hupper⟩
  · next h =>
    have hsub : (ilog2 q.num.natAbs : Int) - (ilog2 q.den : Int) - 1 + 1
        = (ilog2 q.num.natAbs : Int) - (ilog2 q.den : Int) := by ring
    rw [hsub]
    exact ⟨hlower, lt_of_not_le h⟩

theorem round_even_intCast (n : Int) : round_even (n : ℚ) = n := by
  unfold round_even
  rw [Int.floor_intCast]
  simp

theorem fl_zero : fl 0 = 0 := by
  unfold fl
  rw [if_pos rfl]

/-- An integer of at most 53 bits is a `double`: rounding leaves it as it is. -/
theorem fl_natCast (n : Nat) (hn : n ≤ 2 ^ 53) : fl (n : ℚ) = (n : ℚ) := by
  rcases Nat.eq_zero_or_pos n with h0 | hpos
  · rw [h0, Nat.cast_zero, fl_zero]
  · have hq : (0 : ℚ) < (n : ℚ) := by exact_mod_cast hpos
    obtain ⟨h1, _⟩ := exponent_spec (n : ℚ) hq.ne'
    rw [abs_of_pos hq] at h1
    have hle : (2 : ℚ) ^ exponent (n : ℚ) ≤ (2 : ℚ) ^ (53 : Int) := by
      refine le_trans h1 ?_
      have : (n : ℚ) ≤ ((2 ^ 53 : Nat) : ℚ) := by exact_mod_cast hn
      refine le_trans this ?_
      norm_num
    have he : exponent (n : ℚ) ≤ 53 := (zpow_le_zpow_iff_right₀ (by norm_num)).mp hle
    rcases eq_or_lt_of_le he with h53 | hlt
    · -- n = 2^53
      have hge : ((2 ^ 53 : Nat) : ℚ) ≤ (n : ℚ) := by
        rw [h53] at h1
        refine le_trans ?_ h1
        norm_num
      have hn2 : n = 2 ^ 53 := le_antisymm hn (by exact_mod_cast hge)
      unfold fl
      rw [if_neg hq.ne', h53, pow2_eq_zpow, hn2]
      have hdiv : (((2 ^ 53 : Nat) : ℚ)) / (2 : ℚ) ^ ((53 : Int) - 52) = ((2 ^ 52 : Int) : ℚ) := by
        norm_num
      rw [hdiv, round_even_intCast]
      norm_num
    · have hk : (0 : Int) ≤ 52 - exponent (n : ℚ) := by omega
      have hdiv : (n : ℚ) / (2 : ℚ) ^ (exponent (n : ℚ) - 52)
          = (((n : Int) * 2 ^ (52 - exponent (n : ℚ)).toNat : Int) : ℚ) := by
        have hneg : exponent (n : ℚ) - 52 = -((52 - exponent (n : ℚ)).toNat : Int) := by
          rw [Int.toNat_of_nonneg hk]
          ring
        rw [hneg, zpow_neg, zpow_natCast, div_inv_eq_mul]
        push_cast
        rfl
      unfold fl
      rw [if_neg hq.ne', pow2_eq_zpow, hdiv, round_even_intCast]
      have hneg : exponent (n : ℚ) - 52 = -((52 - exponent (n : ℚ)).toNat : Int) := by
        rw [Int.toNat_of_nonneg hk]
        ring
      rw [hneg, zpow_neg, zpow_natCast]
      push_cast
      have hp : (2 : ℚ) ^ (52 - exponent (n : ℚ)).toNat ≠ 0 := by positivity
      field_simp

/-! ## Claim C3: well-formed progress streams -/

/-- A counter too large for a `long` is stored as -1: `strtol` stops at `LONG_MAX`, whose
low 32 bits are all set. -/
theorem sscanf_d_saturates :
    sscanf_d "99999999999999999999".toList = some (-1)
    ∧ sscanf_d "4294967297".toList = some 1 := by
  decide

theorem feh_display_wallpaper_eq (image a_path : CStr) :
    feh_display_wallpaper image a_path = a_path ++ '/' :: image := by
  unfold feh_display_wallpaper snprintf
  apply List.take_of_length_le
  simp only [List.length_append, List.length_cons]
  omega

theorem trunc_intCast (z : Int) : trunc (z : ℚ) = z := by
  unfold trunc
  simp

/-- One turn of the loop over the frames when `term` is read as set: the loop is left. -/
theorem for_loop_break (env : SchedEnv) (files : List CStr) (a_path : CStr) (nd : Int)
    (rem i : Nat) (st : SchedState) (h : env.term st.polls = true) :
    for_loop env files a_path nd (rem + 1) i st
      = ⟨st.polls + 1, st.clocks + 1, ⟨st.reg.tv_sec, nd⟩, st.trace⟩ := by
  rw [for_loop]
  simp only [h, if_true]

/-- One turn of the loop over the frames when `term` is read as clear: the frame is
displayed, and the sleep asked for is what the deduction leaves of the full delay for the
two readings of `clock()` of this frame, whatever `reg` held before. -/
theorem for_loop_step (env : SchedEnv) (files : List CStr) (a_path : CStr) (nd : Int)
    (rem i : Nat) (st : SchedState) (h : env.term st.polls = false) :
    for_loop env files a_path nd (rem + 1) i st
      = for_loop env files a_path nd rem (i + 1)
          ⟨st.polls + 1, st.clocks + 2,
            ⟨st.reg.tv_sec, deduct nd (env.clock st.clocks) (env.clock (st.clocks + 1))⟩,
            st.trace ++ frame_events files a_path st.reg.tv_sec i
              (deduct nd (env.clock st.clocks) (env.clock (st.clocks + 1)))⟩ := by
  rw [for_loop]
  simp only [h, Bool.false_eq_true, if_false, feh_display_wallpaper_eq, frame_events]
  split
  · simp
  · simp

theorem pass_events_zero (env : SchedEnv) (files : List CStr) (a_path : CStr)
    (nd tv_sec : Int) (i c : Nat) : pass_events env files a_path nd tv_sec i c 0 = [] := by
  simp [pass_events]

theorem pass_events_succ (env : SchedEnv) (files : List CStr) (a_path : CStr)
    (nd tv_sec : Int) (i c m : Nat) :
    pass_events env files a_path nd tv_sec i c (m + 1)
      = frame_events files a_path tv_sec i (deduct nd (env.clock c) (env.clock (c + 1)))
        ++ pass_events env files a_path nd tv_sec (i + 1) (c + 2) m := by
  unfold pass_events
  rw [List.range_succ_eq_map, List.flatMap_cons, List.flatMap_map]
  congr 1
  apply List.flatMap_congr
  intro j _
  have h1 : i + (j + 1) = i + 1 + j := by omega
  have h2 : c + 2 * (j + 1) = c + 2 + 2 * j := by omega
  simp only [Function.comp, Nat.succ_eq_add_one, h1, h2]

/-- The loop over the frames displays a run of `m` frames, the first `m` for which `term`
is read as clear, and is left at the first read of `term` as set. -/
theorem for_loop_spec (env : SchedEnv) (files : List CStr) (a_path : CStr) (nd : Int) :
    ∀ (rem i : Nat) (st : SchedState), ∃ m, m ≤ rem
      ∧ (∀ j, j < m → env.term (st.polls + j) = false)
      ∧ (m < rem → env.term (st.polls + m) = true)
      ∧ (for_loop env files a_path nd rem i st).trace
          = st.trace ++ pass_events env files a_path nd st.reg.tv_sec i st.clocks m
      ∧ (for_loop env files a_path nd rem i st).polls
          = st.polls + m + (if m < rem then 1 else 0)
      ∧ (for_loop env files a_path nd rem i st).clocks
          = st.clocks + 2 * m + (if m < rem then 1 else 0)
      ∧ (for_loop env files a_path nd rem i st).reg.tv_sec = st.reg.tv_sec := by
  intro rem
  induction rem with
  | zero =>
    intro i st
    exact ⟨0, le_refl _, fun j hj => absurd hj (Nat.not_lt_zero j), fun h => absurd h (lt_irrefl 0),
      by simp [for_loop, pass_events_zero], by simp [for_loop], by simp [for_loop], rfl⟩
  | succ rem ih =>
    intro i st
    cases hterm : env.term st.polls with
    | true =>
      refine ⟨0, Nat.zero_le _, fun j hj => absurd hj (Nat.not_lt_zero j), fun _ => hterm, ?_, ?_,
        ?_, ?_⟩
      · rw [for_loop_break env files a_path nd rem i st hterm, pass_events_zero]
        simp
      · rw [for_loop_break env files a_path nd rem i st hterm]
        simp
      · rw [for_loop_break env files a_path nd rem i st hterm]
        simp
      · rw [for_loop_break env files a_path nd rem i st hterm]
    | false =>
      obtain ⟨m, hm, hfalse, htrue, htrace, hpolls, hclocks, hsec⟩ := ih (i + 1)
        ⟨st.polls + 1, st.clocks + 2,
          ⟨st.reg.tv_sec, deduct nd (env.clock st.clocks) (env.clock (st.clocks + 1))⟩,
          st.trace ++ frame_events files a_path st.reg.tv_sec i
            (deduct nd (env.clock st.clocks) (env.clock (st.clocks + 1)))⟩
      simp only at hfalse htrue htrace hpolls hclocks hsec
      refine ⟨m + 1, by omega, ?_, ?_, ?_, ?_, ?_, ?_⟩
      · intro j hj
        cases j with
        | zero => exact hterm
        | succ j =>
          have := hfalse j (by omega)
          rwa [show st.polls + 1 + j = st.polls + (j + 1) by omega] at this
      · intro h
        have := htrue (by omega)
        rwa [show st.polls + 1 + m = st.polls + (m + 1) by omega] at this
      · rw [for_loop_step env files a_path nd rem i st hterm, htrace, pass_events_succ,
          List.append_assoc]
      · rw [for_loop_step env files a_path nd rem i st hterm, hpolls]
        by_cases h : m < rem
        · simp [h]; omega
        · simp [h]; omega
      · rw [for_loop_step env files a_path nd rem i st hterm, hclocks]
        by_cases h : m < rem
        · simp [h]; omega
        · simp [h]; omega
      · rw [for_loop_step env files a_path nd rem i st hterm, hsec]

theorem trunc_eq_floor (q : ℚ) (hq : 0 ≤ q) : trunc q = ⌊q⌋ := by
  unfold trunc
  rw [Rat.floor_def, Int.tdiv_eq_ediv (Rat.num_nonneg.mpr hq) (Int.ofNat_nonneg _)]

theorem displays_append (a b : List Event) : displays (a ++ b) = displays a ++ displays b := by
  induction a with
  | nil => rfl
  | cons e a ih =>
    cases e with
    | display p => simp [displays, ih]
    | nanosleep r => simp [displays, ih]

theorem displays_frame_events (files : List CStr) (a_path : CStr) (tv_sec : Int) (i : Nat)
    (tv_nsec : Int) :
    displays (frame_events files a_path tv_sec i tv_nsec) = [a_path ++ '/' :: files.getD i []] := by
  unfold frame_events
  split <;> rfl

theorem displays_run_events (env : SchedEnv) (files : List CStr) (n : Nat) (a_path : CStr)
    (nd : Int) (d : Nat) :
    displays (run_events env files n a_path nd d)
      = (List.range d).map (fun j => a_path ++ '/' :: files.getD (j % n) []) := by
  induction d with
  | zero => rfl
  | succ d ih =>
    unfold run_events at ih ⊢
    rw [List.range_succ, List.flatMap_append, displays_append, ih, List.map_append]
    simp [displays_frame_events]

theorem run_events_add (env : SchedEnv) (files : List CStr) (n : Nat) (a_path : CStr)
    (nd : Int) (d m : Nat) (hd : d % n = 0) (hm : m ≤ n) :
    run_events env files n a_path nd (d + m)
      = run_events env files n a_path nd d ++ pass_events env files a_path nd 0 0 (2 * d) m := by
  unfold run_events pass_events
  rw [List.range_add, List.flatMap_append, List.flatMap_map]
  congr 1
  apply List.flatMap_congr
  intro j hj
  have hjm : j < m := List.mem_range.mp hj
  have hmod : (d + j) % n = j := by
    rw [Nat.add_mod, hd, Nat.zero_add, Nat.mod_mod, Nat.mod_eq_of_lt (by omega)]
  have h2 : 2 * (d + j) = 2 * d + 2 * j := by omega
  simp only [Function.comp, hmod, h2, Nat.zero_add]

/-- One pass of the `while` loop that starts with `term` clear: the state after the loop
over the frames. -/
theorem pass_spec (env : SchedEnv) (files : List CStr) (n : Nat) (a_path : CStr) (nd : Int)
    (st : SchedState) (d : Nat) (hd : d % n = 0) (hclocks : st.clocks = 2 * d)
    (htrace : st.trace = run_events env files n a_path nd d) (hsec : st.reg.tv_sec = 0) :
    ∃ m, m ≤ n
      ∧ (∀ j, j < m → env.term (st.polls + 1 + j) = false)
      ∧ (m < n → env.term (st.polls + 1 + m) = true)
      ∧ (for_loop env files a_path nd n 0 { st with polls := st.polls + 1 }).trace
          = run_events env files n a_path nd (d + m)
      ∧ (for_loop env files a_path nd n 0 { st with polls := st.polls + 1 }).polls
          = st.polls + 1 + m + (if m < n then 1 else 0)
      ∧ (for_loop env files a_path nd n 0 { st with polls := st.polls + 1 }).clocks
          = 2 * d + 2 * m + (if m < n then 1 else 0)
      ∧ (for_loop env files a_path nd n 0 { st with polls := st.polls + 1 }).reg.tv_sec = 0 := by
  obtain ⟨m, hm, hfalse, htrue, htr, hpolls, hcl, hs⟩ :=
    for_loop_spec env files a_path nd n 0 { st with polls := st.polls + 1 }
  simp only at hfalse htrue htr hpolls hcl hs
  refine ⟨m, hm, hfalse, htrue, ?_, hpolls, ?_, ?_⟩
  · rw [htr, htrace, hsec, hclocks, run_events_add env files n a_path nd d m hd hm]
  · rw [hcl, hclocks]
  · rw [hs, hsec]

/-- With a flag that is never cleared, the calls made by the `while` loop are those of the
first `d` frames of the cyclic sequence, for some `d`. -/
theorem while_loop_cyclic (env : SchedEnv) (files : List CStr) (n : Nat) (a_path : CStr)
    (nd : Int) (hmono : ∀ k, env.term k = true → env.term (k + 1) = true) :
    ∀ (fuel : Nat) (st : SchedState) (d : Nat), d % n = 0 → st.clocks = 2 * d →
      st.trace = run_events env files n a_path nd d → st.reg.tv_sec = 0 →
      ∃ d', (while_loop env files n a_path nd fuel st).1.trace
        = run_events env files n a_path nd d' := by
  intro fuel
  induction fuel with
  | zero => intro st d _ _ htrace _; exact ⟨d, by rw [while_loop]; exact htrace⟩
  | succ fuel ih =>
    intro st d hd hclocks htrace hsec
    rw [while_loop]
    cases hterm : env.term st.polls with
    | true => exact ⟨d, by simpa using htrace⟩
    | false =>
      simp only [Bool.false_eq_true, if_false]
      obtain ⟨m, hm, _, htrue, htr, hpolls, hcl, hs⟩ :=
        pass_spec env files n a_path nd st d hd hclocks htrace hsec
      by_cases hmn : m < n
      · refine ⟨d + m, ?_⟩
        cases fuel with
        | zero => rw [while_loop]; exact htr
        | succ fuel =>
          rw [while_loop]
          have hset : env.term (for_loop env files a_path nd n 0
              { st with polls := st.polls + 1 }).polls = true := by
            rw [hpolls, if_pos hmn]
            exact hmono _ (htrue hmn)
          simp only [hset, if_true]
          exact htr
      · have hmeq : m = n := by omega
        subst hmeq
        simp only [lt_irrefl, if_false, Nat.add_zero] at hcl
        exact ih _ (d + m) (by rw [Nat.add_mod_right]; exact hd) (by rw [hcl]; ring) htr hs

/-- The `while` loop when the flag is read as clear up to the read made for frame `i` of
the pass that starts `p` passes from now, and as set from then on. -/
theorem while_loop_cancel (env : SchedEnv) (files : List CStr) (n : Nat) (a_path : CStr)
    (nd : Int) (i t : Nat) (hi : i < n)
    (hclear : ∀ k, k ≤ t → env.term k = false) (hset : ∀ k, t < k → env.term k = true) :
    ∀ (p fuel : Nat) (st : SchedState) (d : Nat), d % n = 0 → st.clocks = 2 * d →
      st.trace = run_events env files n a_path nd d → st.reg.tv_sec = 0 →
      st.polls + p * (n + 1) + 1 + i = t → p + 2 ≤ fuel →
      (while_loop env files n a_path nd fuel st).2 = true
      ∧ (while_loop env files n a_path nd fuel st).1.trace
        = run_events env files n a_path nd (d + p * n + i + 1) := by
  intro p
  induction p with
  | zero =>
    intro fuel st d hd hclocks htrace hsec ht hfuel
    obtain ⟨f, rfl⟩ : ∃ f, fuel = f + 2 := ⟨fuel - 2, by omega⟩
    rw [while_loop]
    simp only [hclear st.polls (by omega), Bool.false_eq_true, if_false]
    obtain ⟨m, hm, hfalse, htrue, htr, hpolls, _, _⟩ :=
      pass_spec env files n a_path nd st d hd hclocks htrace hsec
    have hmi : m = i + 1 := by
      rcases Nat.lt_trichotomy m (i + 1) with h | h | h
      · have h1 := htrue (by omega)
        rw [hclear _ (by omega)] at h1
        exact absurd h1 (by decide)
      · exact h
      · have h1 := hfalse (i + 1) h
        rw [hset _ (by omega)] at h1
        exact absurd h1 (by decide)
    rw [while_loop]
    have hlast : env.term (for_loop env files a_path nd n 0
        { st with polls := st.polls + 1 }).polls = true := by
      rw [hpolls]
      apply hset
      omega
    simp only [hlast, if_true]
    refine ⟨trivial, ?_⟩
    rw [htr, hmi]
    congr 1
    omega
  | succ p ih =>
    intro fuel st d hd hclocks htrace hsec ht hfuel
    obtain ⟨f, rfl⟩ : ∃ f, fuel = f + 1 := ⟨fuel - 1, by omega⟩
    have hmul : (p + 1) * (n + 1) = p * (n + 1) + n + 1 := by ring
    have hmul2 : (p + 1) * n = p * n + n := by ring
    rw [while_loop]
    simp only [hclear st.polls (by omega), Bool.false_eq_true, if_false]
    obtain ⟨m, hm, _, htrue, htr, hpolls, hcl, hs⟩ :=
      pass_spec env files n a_path nd st d hd hclocks htrace hsec
    have hmn : m = n := by
      by_contra hne
      have h1 := htrue (by omega)
      rw [hclear _ (by omega)] at h1
      exact absurd h1 (by decide)
    subst hmn
    simp only [lt_irrefl, if_false, Nat.add_zero] at hcl hpolls
    have := ih f _ (d + m) (by rw [Nat.add_mod_right]; exact hd) (by rw [hcl]; ring) htr hs
      (by rw [hpolls]; omega) (by omega)
    refine ⟨this.1, ?_⟩
    rw [this.2]
    congr 1
    omega

/-- Claim C7, the code at the failing input: at a rate of 0.5 frames per second the delay
is 2,000,000,000 ns; after a display of 1 ms the request handed to `nanosleep` is
`tv_sec = 0`, `tv_nsec = 1,999,000,000`, which is not a valid request, so that no
sleep takes place where 1,999,000,000 ns remain of the period. -/
theorem C7_slow_rate_invalid_request :
    n_delay (1 / 2) = 2000000000
    ∧ (swiper_execute_wallpaper one_frame_env ["0001.jpg".toList] 1 "/home/u/.swiper".toList
        (1 / 2) 10).1.trace
      = [Event.display "/home/u/.swiper/0001.jpg".toList, Event.nanosleep ⟨0, 1999000000⟩]
    ∧ valid_timespec ⟨0, 1999000000⟩ = false
    ∧ nanosleep ⟨0, 1999000000⟩ = 0 := by
  decide!

/-- Over frames during which `term` is read as clear, and whatever the state the loop over
the frames starts from, the calls made are those of these frames, one after the other. -/
theorem for_loop_clear (env : SchedEnv) (files : List CStr) (a_path : CStr) (nd : Int)
    (rem i : Nat) (st : SchedState)
    (hterm : ∀ j, j < rem → env.term (st.polls + j) = false) :
    (for_loop env files a_path nd rem i st).trace
      = st.trace ++ pass_events env files a_path nd st.reg.tv_sec i st.clocks rem := by
  obtain ⟨m, hm, _, htrue, htrace, _⟩ := for_loop_spec env files a_path nd rem i st
  have hmr : m = rem := by
    by_contra hne
    have hlt : m < rem := lt_of_le_of_ne hm hne
    have h1 := htrue hlt
    rw [hterm m hlt] at h1
    exact absurd h1 (by decide)
  rw [htrace, hmr]

/-- The deduction is computed in `double`: at 25 frames per second, for a display of
31,252 ticks of `clock()`, it leaves 8,747,999 ns of the delay of 40,000,000 ns, one less
than the difference 40,000,000 - 31,252,000. -/
theorem deduct_rounded :
    n_delay 25 = 40000000
    ∧ deduct (n_delay 25) 0 31252 = 8747999
    ∧ n_delay 25 - elapsed_ns 0 31252 = 8748000 := by
  decide!

/-- Claim C8, the code at the failing input.  In every run (the flag `term`, once set,
staying set) the calls made are, frame after frame, the display of the frame followed by
the request that the deduction leaves of the full delay for the two readings of `clock()`
of that same frame, and by no request when that is negative: no lag is carried forward.
But at a rate of 0.5 frames per second the period is 2 s.  Of three frames displayed in
1 ms, 2.5 s and 1 ms, the second, whose display exceeds the period, is followed by no
call of `nanosleep`; the third is followed by the request `tv_sec = 0`,
`tv_nsec = 1,999,000,000`, the full period less its own 1 ms, which `nanosleep` rejects,
so that no time is slept after it: its period is cut to its 1 ms of display.  At 25
frames per second the frame that follows a late frame does sleep the full period of
40 ms less its own 10 µs. -/
theorem C8_lag_at_slow_rate :
    (∀ (env : SchedEnv) (files : List CStr) (a_path : CStr) (dfps : ℚ) (fuel : Nat),
      (∀ k, env.term k = true → env.term (k + 1) = true) →
      ∃ d, (swiper_execute_wallpaper env files files.length a_path dfps fuel).1.trace
        = run_events env files files.length a_path (n_delay dfps) d)
    ∧ n_delay (1 / 2) = 2000000000
    ∧ elapsed_ns (slow_lag_env.clock 2) (slow_lag_env.clock 3) = 2500000000
    ∧ elapsed_ns (slow_lag_env.clock 4) (slow_lag_env.clock 5) = 1000000
    ∧ (swiper_execute_wallpaper slow_lag_env three_files 3 "/mnt/swiper".toList (1 / 2)
        10).1.trace
      = [Event.display "/mnt/swiper/0001.jpg".toList, Event.nanosleep ⟨0, 1999000000⟩,
          Event.display "/mnt/swiper/0002.jpg".toList,
          Event.display "/mnt/swiper/0003.jpg".toList, Event.nanosleep ⟨0, 1999000000⟩]
    ∧ slept (swiper_execute_wallpaper slow_lag_env three_files 3 "/mnt/swiper".toList (1 / 2)
        10).1.trace = [0, 0]
    ∧ (swiper_execute_wallpaper lag_env three_files 3 "/mnt/swiper".toList 25 10).1.trace
      = [Event.display "/mnt/swiper/0001.jpg".toList, Event.nanosleep ⟨0, 39000000⟩,
          Event.display "/mnt/swiper/0002.jpg".toList,
          Event.display "/mnt/swiper/0003.jpg".toList, Event.nanosleep ⟨0, 39990000⟩]
    ∧ slept (swiper_execute_wallpaper lag_env three_files 3 "/mnt/swiper".toList 25 10).1.trace
      = [39000000, 39990000] :=
  ⟨fun env files a_path dfps fuel hmono =>
    while_loop_cyclic env files files.length a_path (n_delay dfps) hmono fuel
      ⟨0, 0, ⟨0, 0⟩, []⟩ 0 (Nat.zero_mod _) rfl rfl rfl, by decide!⟩

/-- Claim C9: number the reads of `term` from 0, so that pass `q` over `n` frames reads it
as read `q(n+1)` at the top of the `while` loop and as read `q(n+1)+1+i` before the display of
its frame `i`.  If the flag becomes set during frame `i` of pass `q`, that is, it is read
as clear up to the read made for that frame and as set at every later read, then
`swiper_execute_wallpaper` returns, and the displays it has made are those of the passes
before `q` and of the frames `0..i` of pass `q`: none is made after frame `i`. -/
theorem C9_cancellation (env : SchedEnv) (files : List CStr) (a_path : CStr) (dfps : ℚ)
    (q i fuel : Nat) (hi : i < files.length)
    (hclear : ∀ k, k ≤ q * (files.length + 1) + 1 + i → env.term k = false)
    (hset : ∀ k, q * (files.length + 1) + 1 + i < k → env.term k = true)
    (hfuel : q + 2 ≤ fuel) :
    (swiper_execute_wallpaper env files files.length a_path dfps fuel).2 = true
    ∧ displays (swiper_execute_wallpaper env files files.length a_path dfps fuel).1.trace
      = (List.range (q * files.length + i + 1)).map
          (fun j => a_path ++ '/' :: files.getD (j % files.length) []) := by
  have h := while_loop_cancel env files files.length a_path (n_delay dfps) i
    (q * (files.length + 1) + 1 + i) hi hclear hset q fuel ⟨0, 0, ⟨0, 0⟩, []⟩ 0
    (Nat.zero_mod _) rfl rfl rfl (by simp) hfuel
  unfold swiper_execute_wallpaper
  refine ⟨h.1, ?_⟩
  rw [h.2, displays_run_events]
  congr 2
  omega

/-- Claim C9, witness: three frames, the flag set during the second frame of the second
pass; the run returns after five displays, the last of them of the second frame. -/
theorem C9_cancellation_witness :
    (swiper_execute_wallpaper cancel_env three_files 3 "/mnt/swiper".toList 25 10).2 = true
    ∧ displays (swiper_execute_wallpaper cancel_env three_files 3 "/mnt/swiper".toList 25
        10).1.trace
      = ["/mnt/swiper/0001.jpg".toList, "/mnt/swiper/0002.jpg".toList,
          "/mnt/swiper/0003.jpg".toList, "/mnt/swiper/0001.jpg".toList,
          "/mnt/swiper/0002.jpg".toList] := by
  have h := C9_cancellation cancel_env three_files "/mnt/swiper".toList 25 1 1 10 (by decide)
    (fun k hk => by
      have hk2 : k ≤ 6 := hk
      simp only [cancel_env, decide_eq_false_iff_not]
      omega)
    (fun k hk => by
      have hk2 : 6 < k := hk
      simp only [cancel_env, decide_eq_true_eq]
      omega)
    (by decide)
  exact ⟨h.1, h.2.trans (by decide)⟩

/-- Claim C10: for every frame list, of any length `n`, and every run of
`swiper_execute_wallpaper` (the flag `term`, once set, staying set), the displays made are
an initial run of the frame list repeated cyclically: the `j`-th display, counting from 0,
is that of `files[j mod n]` under the frame root. -/
theorem C10_cyclic_order (env : SchedEnv) (files : List CStr) (a_path : CStr) (dfps : ℚ)
    (fuel : Nat)
    (hmono : ∀ k, env.term k = true → env.term (k + 1) = true) :
    ∃ m, displays (swiper_execute_wallpaper env files files.length a_path dfps fuel).1.trace
      = (List.range m).map (fun j => a_path ++ '/' :: files.getD (j % files.length) []) := by
  obtain ⟨d, hd⟩ := while_loop_cyclic env files files.length a_path (n_delay dfps) hmono fuel
    ⟨0, 0, ⟨0, 0⟩, []⟩ 0 (Nat.zero_mod _) rfl rfl rfl
  refine ⟨d, ?_⟩
  unfold swiper_execute_wallpaper
  rw [hd, displays_run_events]

/-- Claim C10, witness: three frames and a flag set during the second pass; the displays
are the first five of the cyclic sequence. -/
theorem C10_cyclic_order_witness :
    ∃ m, displays (swiper_execute_wallpaper cancel_env three_files 3 "/mnt/swiper".toList 25
        10).1.trace
      = (List.range m).map (fun j => "/mnt/swiper".toList ++ '/' :: three_files.getD (j % 3) []) :=
  C10_cyclic_order cancel_env three_files "/mnt/swiper".toList 25 10
    (fun k hk => by
      simp only [cancel_env, decide_eq_true_eq] at hk ⊢
      omega)

/-! ## Claim C11: `rolling_umount` -/

theorem umount_other (target : CStr) (table : List Mntent) :
    (umount target table).filter (fun me => !(me.mnt_dir == target))
      = table.filter (fun me => !(me.mnt_dir == target)) := by
  induction table with
  | nil => rfl
  | cons me rest ih =>
    rw [umount]
    split
    · next h =>
      simp only [Bool.and_eq_true] at h
      rw [List.filter_cons]
      simp [h.1]
    · rw [List.filter_cons, List.filter_cons, ih]

theorem umount_count (target : CStr) (table : List Mntent) :
    (mounted_at target (umount target table)).length
      = (mounted_at target table).length - 1 := by
  unfold mounted_at
  induction table with
  | nil => rfl
  | cons me rest ih =>
    rw [umount]
    split
    · next h =>
      simp only [Bool.and_eq_true] at h
      rw [List.filter_cons]
      simp [h.1]
    · next h =>
      rw [List.filter_cons, List.filter_cons]
      by_cases hme : (me.mnt_dir == target) = true
      · have hany : rest.any (fun m => m.mnt_dir == target) = true := by
          by_contra hno
          apply h
          simp only [Bool.not_eq_true] at hno
          simp [hme, hno]
        have hpos : 0 < (rest.filter (fun m => m.mnt_dir == target)).length := by
          obtain ⟨m, hm, hmt⟩ := List.any_eq_true.mp hany
          exact List.length_pos_of_mem (List.mem_filter.mpr ⟨hm, hmt⟩)
        simp only [hme, if_true, List.length_cons, ih]
        omega
      · simp only [hme, Bool.false_eq_true, if_false, ih]

theorem rolling_umount_loop_spec (mp : CStr) : ∀ (entries table : List Mntent) (calls : Nat),
    (rolling_umount_loop mp entries table calls).2 = calls + (mounted_at mp entries).length
    ∧ (mounted_at mp (rolling_umount_loop mp entries table calls).1).length
      = (mounted_at mp table).length - (mounted_at mp entries).length
    ∧ (rolling_umount_loop mp entries table calls).1.filter (fun me => !(me.mnt_dir == mp))
      = table.filter (fun me => !(me.mnt_dir == mp)) := by
  intro entries
  induction entries with
  | nil => intro table calls; simp [rolling_umount_loop, mounted_at]
  | cons me entries ih =>
    intro table calls
    rw [rolling_umount_loop]
    by_cases h : mp = me.mnt_dir
    · have hb : (mp == me.mnt_dir) = true := by simp [h]
      have hb2 : (me.mnt_dir == mp) = true := by simp [h]
      obtain ⟨h1, h2, h3⟩ := ih (umount mp table) (calls + 1)
      simp only [hb, if_true]
      refine ⟨?_, ?_, ?_⟩
      · rw [h1]
        simp only [mounted_at, List.filter_cons, hb2, if_true, List.length_cons]
        omega
      · rw [h2, umount_count]
        simp only [mounted_at, List.filter_cons, hb2, if_true, List.length_cons]
        omega
      · rw [h3, umount_other]
    · have hb : (mp == me.mnt_dir) = false := by simp [h]
      have hb2 : (me.mnt_dir == mp) = false := by
        simp only [beq_eq_false_iff_ne]
        exact fun heq => h heq.symm
      obtain ⟨h1, h2, h3⟩ := ih table calls
      simp only [hb, Bool.false_eq_true, if_false]
      refine ⟨?_, ?_, h3⟩
      · rw [h1]
        simp [mounted_at, List.filter_cons, hb2]
      · rw [h2]
        simp [mounted_at, List.filter_cons, hb2]

theorem filter_other_of_none (mp : CStr) (table : List Mntent) (h : mounted_at mp table = []) :
    table.filter (fun me => !(me.mnt_dir == mp)) = table := by
  rw [List.filter_eq_self]
  intro me hme
  by_contra hne
  simp only [Bool.not_eq_true, Bool.not_eq_false'] at hne
  have : me ∈ mounted_at mp table := List.mem_filter.mpr ⟨hme, hne⟩
  rw [h] at this
  exact absurd this (List.not_mem_nil _)

/-- The state of the mount table after `rolling_umount(mp)`. -/
theorem rolling_umount_spec (mp : CStr) (table : List Mntent) :
    mounted_at mp (rolling_umount mp table).1 = []
    ∧ (rolling_umount mp table).2 = (mounted_at mp table).length
    ∧ (rolling_umount mp table).1 = table.filter (fun me => !(me.mnt_dir == mp)) := by
  obtain ⟨h1, h2, h3⟩ := rolling_umount_loop_spec mp table table 0
  have hnone : mounted_at mp (rolling_umount mp table).1 = [] := by
    apply List.eq_nil_of_length_eq_zero
    unfold rolling_umount
    rw [h2]
    omega
  refine ⟨hnone, ?_, ?_⟩
  · unfold rolling_umount
    rw [h1]
    omega
  · rw [← filter_other_of_none mp _ hnone]
    exact h3

/-- Claim C11: for every mount table, after `rolling_umount(TFSMP)` no filesystem is
mounted at `TFSMP`; one `umount` has been issued for each entry of the table mounted at
`TFSMP`; the entries at other mount points are as before, in their order; and after the
cache provisioning (`rolling_umount` followed by `mount`), run once or twice in a row,
exactly one filesystem, the memory-backed area, is mounted at `TFSMP`. -/
theorem C11_rolling_umount (table : List Mntent) :
    mounted_at TFSMP (rolling_umount TFSMP table).1 = []
    ∧ (rolling_umount TFSMP table).2 = (mounted_at TFSMP table).length
    ∧ (rolling_umount TFSMP table).1 = table.filter (fun me => !(me.mnt_dir == TFSMP))
    ∧ mounted_at TFSMP (provision table) = [⟨"tmpfs".toList, TFSMP, "tmpfs".toList⟩]
    ∧ mounted_at TFSMP (provision (provision table))
      = [⟨"tmpfs".toList, TFSMP, "tmpfs".toList⟩]
    ∧ (provision (provision table)).filter (fun me => !(me.mnt_dir == TFSMP))
      = table.filter (fun me => !(me.mnt_dir == TFSMP)) := by
  have hprov : ∀ t : List Mntent,
      mounted_at TFSMP (provision t) = [⟨"tmpfs".toList, TFSMP, "tmpfs".toList⟩]
      ∧ (provision t).filter (fun me => !(me.mnt_dir == TFSMP))
        = t.filter (fun me => !(me.mnt_dir == TFSMP)) := by
    intro t
    obtain ⟨h1, _, h3⟩ := rolling_umount_spec TFSMP t
    constructor
    · unfold provision mount mounted_at at *
      rw [List.filter_append, h1]
      rfl
    · unfold provision mount
      rw [List.filter_append, h3, List.filter_filter]
      simp
  obtain ⟨h1, h2, h3⟩ := rolling_umount_spec TFSMP table
  refine ⟨h1, h2, h3, (hprov table).1, (hprov (provision table)).1, ?_⟩
  rw [(hprov (provision table)).2, (hprov table).2]

/-! ## Claim C12: the names built by `swiper_retrieve_image_names` -/

theorem name_loop_spec (format : CStr) : ∀ (ents : List Dirent) (i : Nat) (files : List CStr),
    name_loop format ents i files
      = files ++ (List.range' (i + 1) (ents.countP is_visfile)).map
          (fun j => snprintf 21 (fmt_04d j ++ '.' :: format)) := by
  intro ents
  induction ents with
  | nil => intro i files; simp [name_loop]
  | cons ent rest ih =>
    intro i files
    rw [name_loop]
    have hcomm : (deref ent.d_name != '.' && ent.d_type == DType.DT_REG) = is_visfile ent := by
      unfold is_visfile
      exact Bool.and_comm _ _
    rw [hcomm]
    by_cases hv : is_visfile ent = true
    · rw [if_pos hv, ih, List.countP_cons_of_pos _ _ hv, List.range'_succ]
      simp
    · rw [if_neg hv, ih, List.countP_cons_of_neg _ _ hv]

theorem name_fits (format : CStr) (hext : format.length ≤ 15) (j : Nat) (hj : j ≤ 9999) :
    snprintf 21 (fmt_04d j ++ '.' :: format) = fmt_04d j ++ '.' :: format := by
  unfold snprintf
  apply List.take_of_length_le
  rw [List.length_append, List.length_cons, fmt_04d_length j hj]
  omega

theorem take_range_le (s N M : Nat) (h : N ≤ M) :
    (List.range' s M).take N = List.range' s N := by
  obtain ⟨d, rfl⟩ := Nat.exists_eq_add_of_le h
  rw [Nat.add_comm, ← List.range'_append_1, List.take_left']
  exact List.length_range' _ _ _

/-- The first `N` names written by the naming loop, for `N` up to 9999 and up to the number
of files the loop reads, are `0001.<format>` to `NNNN.<format>`. -/
theorem name_loop_take (format : CStr) (hext : format.length ≤ 15) (ents : List Dirent)
    (N : Nat) (hN : N ≤ 9999) (hM : N ≤ ents.countP is_visfile) :
    (name_loop format ents 0 []).take N
        = (List.range' 1 N).map (fun i => fmt_04d i ++ '.' :: format)
    ∧ N ≤ (name_loop format ents 0 []).length
    ∧ (ents.countP is_visfile = N → (name_loop format ents 0 []).length = N) := by
  rw [name_loop_spec]
  refine ⟨?_, by simpa using hM, fun h => by simp [h]⟩
  rw [List.nil_append, ← List.map_take, take_range_le 1 N _ hM]
  apply List.map_congr_left
  intro j hj
  have := List.mem_range'_1.mp hj
  exact name_fits format hext j (by omega)

theorem entry_path_injective (dirpath : CStr) (e1 e2 : Dirent)
    (h : entry_path dirpath e1 = entry_path dirpath e2) : e1.d_name = e2.d_name := by
  unfold entry_path at h
  have := List.append_cancel_left h
  exact (List.cons.inj this).2

/-- Removing a path from a directory whose names are distinct takes at most one file
away. -/
theorem filter_path_count (dirpath p : CStr) : ∀ (ents : List Dirent),
    (ents.map (fun ent => ent.d_name)).Nodup →
    ents.countP is_visfile
        ≤ (ents.filter (fun ent => !(entry_path dirpath ent == p))).countP is_visfile + 1
    ∧ ((∃ ent ∈ ents, entry_path dirpath ent = p ∧ is_visfile ent = true) →
      (ents.filter (fun ent => !(entry_path dirpath ent == p))).countP is_visfile + 1
        = ents.countP is_visfile) := by
  intro ents
  induction ents with
  | nil =>
    intro _
    exact ⟨by simp, fun ⟨e, he, _⟩ => absurd he (List.not_mem_nil _)⟩
  | cons e es ih =>
    intro hnodup
    rw [List.map_cons, List.nodup_cons] at hnodup
    obtain ⟨hnotin, hnd⟩ := hnodup
    obtain ⟨ih1, ih2⟩ := ih hnd
    by_cases hp : entry_path dirpath e = p
    · have hrest : es.filter (fun ent => !(entry_path dirpath ent == p)) = es := by
        rw [List.filter_eq_self]
        intro x hx
        by_contra hcon
        simp only [Bool.not_eq_true, Bool.not_eq_false', beq_iff_eq] at hcon
        apply hnotin
        rw [← hp] at hcon
        rw [← entry_path_injective dirpath x e hcon]
        exact List.mem_map.mpr ⟨x, hx, rfl⟩
      have hfil : (e :: es).filter (fun ent => !(entry_path dirpath ent == p)) = es := by
        rw [List.filter_cons]
        simp [hp, hrest]
      rw [hfil]
      constructor
      · rw [List.countP_cons]
        split <;> omega
      · rintro ⟨x, hx, hxp, hxv⟩
        have hxe : x = e := by
          rcases List.mem_cons.mp hx with h | h
          · exact h
          · exfalso
            apply hnotin
            rw [← hp] at hxp
            rw [← entry_path_injective dirpath x e hxp]
            exact List.mem_map.mpr ⟨x, h, rfl⟩
        rw [hxe] at hxv
        rw [List.countP_cons_of_pos _ _ hxv]
    · have hfil : (e :: es).filter (fun ent => !(entry_path dirpath ent == p))
          = e :: es.filter (fun ent => !(entry_path dirpath ent == p)) := by
        rw [List.filter_cons]
        simp [hp]
      rw [hfil]
      constructor
      · rw [List.countP_cons, List.countP_cons]
        split <;> omega
      · rintro ⟨x, hx, hxp, hxv⟩
        have hxes : x ∈ es := by
          rcases List.mem_cons.mp hx with h | h
          · rw [h] at hxp
            exact absurd hxp hp
          · exact h
        have := ih2 ⟨x, hxes, hxp, hxv⟩
        rw [List.countP_cons, List.countP_cons]
        split <;> omega

theorem remove_eq_some_iff (dirpath : CStr) (ents ents2 : List Dirent) (p : CStr)
    (h : remove dirpath ents p = some ents2) :
    ents2 = ents.filter (fun ent => !(entry_path dirpath ent == p))
    ∧ ∃ ent ∈ ents, entry_path dirpath ent = p := by
  unfold remove at h
  split at h
  · next hany =>
    obtain ⟨ent, hent, hbeq⟩ := List.any_eq_true.mp hany
    exact ⟨(Option.some.inj h).symm, ent, hent, by simpa using hbeq⟩
  · exact absurd h (by simp)

theorem nodup_filter_names (ents : List Dirent) (q : Dirent → Bool)
    (h : (ents.map (fun ent => ent.d_name)).Nodup) :
    ((ents.filter q).map (fun ent => ent.d_name)).Nodup :=
  List.Nodup.sublist (List.Sublist.map _ (List.filter_sublist ents)) h

/-- The shaving loop takes at most one file away at each of its turns. -/
theorem shave_loop_count (s_path format : CStr) : ∀ (rem i : Nat) (st : ShaveState),
    (st.ents.map (fun ent => ent.d_name)).Nodup →
    st.ents.countP is_visfile
      ≤ (shave_loop s_path format rem i st).ents.countP is_visfile + rem := by
  intro rem
  induction rem with
  | zero => intro i st _; simp [shave_loop]
  | succ rem ih =>
    intro i st hnd
    rw [shave_loop]
    cases hrm : remove s_path st.ents (shave_path s_path i format) with
    | none =>
      simp only
      omega
    | some ents2 =>
      simp only
      obtain ⟨heq, _⟩ := remove_eq_some_iff s_path st.ents ents2 _ hrm
      have h1 := (filter_path_count s_path (shave_path s_path i format) st.ents hnd).1
      have h2 := ih (i + 1)
        { st with ents := ents2, removed := st.removed ++ [shave_path s_path i format] }
        (by
          simp only
          rw [heq]
          exact nodup_filter_names _ _ hnd)
      simp only at h2
      rw [heq] at h2 ⊢
      omega

theorem ordinal_entry_visible (dirpath format : CStr) (i : Nat) (ent : Dirent)
    (h : entry_path dirpath ent = ordinal_path dirpath i format) : visible ent = true := by
  unfold entry_path ordinal_path at h
  have h1 := List.append_cancel_left h
  have h2 : ent.d_name = fmt_d i ++ '.' :: format := (List.cons.inj h1).2
  obtain ⟨d, ds, hd⟩ := List.exists_cons_of_ne_nil (fmt_d_ne_nil i)
  have hdig : isdigit d = true := fmt_d_all_digits i d (by simp [hd])
  unfold visible
  rw [h2, hd]
  simp only [List.cons_append, deref, List.headD_cons, bne_iff_ne, ne_eq]
  rintro rfl
  revert hdig
  decide

/-- When every visible entry is a regular file and the shaving loop does not die, it takes
exactly one file away at each of its turns. -/
theorem shave_loop_count_eq (s_path format : CStr) : ∀ (rem i : Nat) (st : ShaveState),
    (st.ents.map (fun ent => ent.d_name)).Nodup →
    (∀ ent ∈ st.ents, visible ent = true → ent.d_type = DType.DT_REG) →
    (∀ j, i ≤ j → j < i + rem → shave_path s_path j format = ordinal_path s_path j format) →
    (shave_loop s_path format rem i st).died = none →
    (shave_loop s_path format rem i st).ents.countP is_visfile + rem
      = st.ents.countP is_visfile := by
  intro rem
  induction rem with
  | zero => intro i st _ _ _ _; simp [shave_loop]
  | succ rem ih =>
    intro i st hnd hreg hpath hdied
    rw [shave_loop] at hdied ⊢
    cases hrm : remove s_path st.ents (shave_path s_path i format) with
    | none =>
      rw [hrm] at hdied
      exact absurd hdied (by simp)
    | some ents2 =>
      rw [hrm] at hdied
      simp only at hdied ⊢
      obtain ⟨heq, ent, hent, hp⟩ := remove_eq_some_iff s_path st.ents ents2 _ hrm
      have hvis : is_visfile ent = true := by
        have hv := ordinal_entry_visible s_path format i ent
          (hp.trans (hpath i (le_refl _) (by omega)))
        have hr := hreg ent hent hv
        unfold is_visfile
        unfold visible at hv
        simp [hr, hv]
      have h1 := (filter_path_count s_path (shave_path s_path i format) st.ents hnd).2
        ⟨ent, hent, hp, hvis⟩
      have h2 := ih (i + 1)
        { st with ents := ents2, removed := st.removed ++ [shave_path s_path i format] }
        (by
          simp only
          rw [heq]
          exact nodup_filter_names _ _ hnd)
        (by
          simp only
          rw [heq]
          intro e he
          exact hreg e (List.mem_filter.mp he).1)
        (fun j h1 h2 => hpath j (by omega) (by omega))
        hdied
      simp only at h2
      rw [heq] at h2 ⊢
      omega

/-- After the shaving of a directory of `k > 9999` files with distinct names, at least 9999
files are left. -/
theorem shave_count_ge (dirpath format : CStr) (ents : List Dirent) (k : Nat)
    (hbig : 9999 < k) (hk : ents.countP is_visfile = k)
    (hnd : (ents.map (fun ent => ent.d_name)).Nodup) :
    9999 ≤ (swiper_shave_s_path dirpath k format ents).ents.countP is_visfile := by
  have h := shave_loop_count dirpath format (k + 1 - 10000) 10000 ⟨ents, [], none⟩ hnd
  have hrem : k + 1 - 10000 = k - 9999 := by omega
  unfold swiper_shave_s_path
  rw [hrem] at h ⊢
  have h2 : ents.countP is_visfile
      ≤ (shave_loop dirpath format (k - 9999) 10000 ⟨ents, [], none⟩).ents.countP is_visfile
        + (k - 9999) := h
  omega

/-- After a shaving that did not die, of a directory of `k > 9999` files with distinct names
whose visible entries are all regular files, exactly 9999 files are left. -/
theorem shave_count_exact (dirpath format : CStr) (ents : List Dirent) (k : Nat)
    (hbig : 9999 < k) (hk : ents.countP is_visfile = k)
    (hnd : (ents.map (fun ent => ent.d_name)).Nodup)
    (hreg : ∀ ent ∈ ents, visible ent = true → ent.d_type = DType.DT_REG)
    (hpath : ∀ j, 10000 ≤ j → j < 10000 + (k + 1 - 10000) →
      shave_path dirpath j format = ordinal_path dirpath j format)
    (hdied : (swiper_shave_s_path dirpath k format ents).died = none) :
    (swiper_shave_s_path dirpath k format ents).ents.countP is_visfile = 9999 := by
  unfold swiper_shave_s_path at hdied
  have h := shave_loop_count_eq dirpath format (k + 1 - 10000) 10000 ⟨ents, [], none⟩ hnd hreg
    hpath hdied
  have hrem : k + 1 - 10000 = k - 9999 := by omega
  unfold swiper_shave_s_path
  rw [hrem] at h ⊢
  have h2 : (shave_loop dirpath format (k - 9999) 10000 ⟨ents, [], none⟩).ents.countP is_visfile
      + (k - 9999) = ents.countP is_visfile := h
  omega

/-- The names returned by `swiper_retrieve_image_names` when it reports `N` entries after
reading the directory `read`. -/
theorem retrieve_names_spec (dirpath format : CStr) (ents read : List Dirent)
    (removed : List CStr) (N : Nat) (r : RetrieveResult)
    (hres : swiper_retrieve_image_names dirpath format ents
      = Except.ok ⟨N, name_loop format read 0 [], read, removed⟩)
    (hr : swiper_retrieve_image_names dirpath format ents = Except.ok r)
    (hext : format.length ≤ 15) (hN : N ≤ 9999) (hM : N ≤ read.countP is_visfile) :
    r.files.take r.nfiles = (List.range' 1 r.nfiles).map (fun i => fmt_04d i ++ '.' :: format)
    ∧ r.nfiles ≤ r.files.length
    ∧ (∀ i, 1 ≤ i → i ≤ r.nfiles →
        r.files[i - 1]? = some (fmt_04d i ++ '.' :: format) ∧ (fmt_04d i).length = 4)
    ∧ (read.countP is_visfile = N → r.files.length = r.nfiles) := by
  rw [hres] at hr
  have hrr := Except.ok.inj hr
  subst hrr
  obtain ⟨h1, h2, h3⟩ := name_loop_take format hext read N hN hM
  refine ⟨h1, h2, ?_, h3⟩
  intro i hi1 hi2
  have hi3 : i ≤ N := hi2
  refine ⟨?_, fmt_04d_length i (by omega)⟩
  have hlt : i - 1 < N := by omega
  have hget : (name_loop format read 0 [])[i - 1]?
      = ((name_loop format read 0 []).take N)[i - 1]? := by
    rw [List.getElem?_take, if_pos hlt]
  show (name_loop format read 0 [])[i - 1]? = _
  rw [hget, h1, List.getElem?_map, List.getElem?_range' _ _ hlt]
  have : 1 + 1 * (i - 1) = i := by omega
  rw [this]
  rfl

/-- Claim C12: let the directory hold entries of distinct names and let the format fit
the 21-byte name buffer (at most 15 bytes; the `format` field of the program holds 3).
When `swiper_retrieve_image_names` returns with the final count `N`, the `N` names it has
built are exactly `0001.ext`, `0002.ext`, ..., `NNNN.ext`: for every `i` in `1..N` the
`i`-th name is the ordinal `i` written with `%04d`, which has 4 digits, followed by `.`
and the format, whatever the names of the files on disk.  When moreover the paths built by
the shaving fit their buffer and every visible entry is a regular file, these `N` names
are all the names written. -/
theorem C12_name_sequence (dirpath format : CStr) (ents : List Dirent) (r : RetrieveResult)
    (hnodup : (ents.map (fun ent => ent.d_name)).Nodup)
    (hext : format.length ≤ 15)
    (hr : swiper_retrieve_image_names dirpath format ents = Except.ok r) :
    r.files.take r.nfiles = (List.range' 1 r.nfiles).map (fun i => fmt_04d i ++ '.' :: format)
    ∧ r.nfiles ≤ r.files.length
    ∧ (∀ i, 1 ≤ i → i ≤ r.nfiles →
        r.files[i - 1]? = some (fmt_04d i ++ '.' :: format) ∧ (fmt_04d i).length = 4)
    ∧ ((9999 < lateral_dir_visfile_count ents →
          dirpath.length + (fmt_d (lateral_dir_visfile_count ents)).length + format.length + 2
            ≤ PATH_LEN + 7) →
        (∀ ent ∈ ents, visible ent = true → ent.d_type = DType.DT_REG) →
        r.files.length = r.nfiles) := by
  have hk := (count_eq_countP ents).symm
  by_cases hbig : 9999 < lateral_dir_visfile_count ents
  · cases hdied : (swiper_shave_s_path dirpath (lateral_dir_visfile_count ents) format ents).died
      with
    | some msg =>
      rw [retrieve_big_died dirpath format ents msg hbig hdied] at hr
      exact absurd hr (by simp)
    | none =>
      have hge := shave_count_ge dirpath format ents _ hbig hk hnodup
      obtain ⟨h1, h2, h3, h4⟩ := retrieve_names_spec dirpath format ents _ _ 9999 r
        (retrieve_big_ok dirpath format ents hbig hdied) hr hext (le_refl _) hge
      refine ⟨h1, h2, h3, fun hfit hreg => h4 ?_⟩
      refine shave_count_exact dirpath format ents _ hbig hk hnodup hreg ?_ hdied
      intro j _ hj
      exact shave_path_eq_ordinal dirpath format j _ (by omega) (hfit hbig)
  · obtain ⟨h1, h2, h3, h4⟩ := retrieve_names_spec dirpath format ents ents [] _ r
      (retrieve_small dirpath format ents hbig) hr hext (by omega) (le_of_eq hk.symm)
    exact ⟨h1, h2, h3, fun _ _ => h4 hk⟩

/-- Claim C12, witness: a directory with the pictures `beach.png`, `sunset.png` and
`tower.png` meets the hypotheses of `C12_name_sequence`; the count returned is 3 and the
names built are `0001.png`, `0002.png`, `0003.png`. -/
theorem C12_name_sequence_witness :
    (holiday_dir.map (fun ent => ent.d_name)).Nodup
    ∧ "png".toList.length ≤ 15
    ∧ ∃ r, swiper_retrieve_image_names "/home/u/.swiper".toList "png".toList holiday_dir
          = Except.ok r
        ∧ r.nfiles = 3
        ∧ r.files.take r.nfiles
          = ["0001.png".toList, "0002.png".toList, "0003.png".toList] := by
  have hnd : (holiday_dir.map (fun ent => ent.d_name)).Nodup := by decide
  have hr : swiper_retrieve_image_names "/home/u/.swiper".toList "png".toList holiday_dir
      = Except.ok ⟨3, ["0001.png".toList, "0002.png".toList, "0003.png".toList],
          holiday_dir, []⟩ := rfl
  have h := C12_name_sequence "/home/u/.swiper".toList "png".toList holiday_dir _ hnd
    (by decide) hr
  exact ⟨hnd, by decide, _, hr, rfl, h.1.trans (by decide)⟩

/-! ## Claim C13: `is_num_str` -/

/-- What the loop of `is_num_str` computes: it fails exactly on the second dot. -/
theorem is_num_str_loop_spec : ∀ (str : CStr) (period : Nat),
    is_num_str_loop str period = true
      ↔ str.count '.' + (if period = 0 then 0 else 1) ≤ 1 := by
  intro str
  induction str with
  | nil =>
    intro period
    simp only [is_num_str_loop, List.count_nil, Nat.zero_add, true_iff]
    split <;> omega
  | cons c cs ih =>
    intro period
    rw [is_num_str_loop]
    by_cases hbig : (decide (48 ≤ c.toNat) && decide (57 ≤ c.toNat)) = true
    · have hne : c ≠ '.' := by
        rintro rfl
        revert hbig
        decide
      rw [if_pos hbig, ih period, List.count_cons_of_ne (Ne.symm hne)]
    · rw [if_neg hbig]
      by_cases hdot : c = '.'
      · subst hdot
        simp only [beq_self_eq_true, if_true, List.count_cons_self]
        by_cases hp : period = 0
        · subst hp
          simp only [bne_self_eq_false, Bool.false_eq_true, if_false, if_true]
          rw [ih 1]
          simp
        · have hpb : (period != 0) = true := by simpa using hp
          simp only [hpb, if_true, hp, if_false]
          constructor
          · intro h; exact absurd h (by decide)
          · intro h; omega
      · have hb : (c == '.') = false := by simpa using hdot
        simp only [hb, Bool.false_eq_true, if_false]
        rw [ih period, List.count_cons_of_ne (Ne.symm hdot)]

/-- `is_num_str` accepts every string that holds at most one dot, whatever its other
characters, and no other string. -/
theorem is_num_str_spec (str : CStr) : is_num_str str = true ↔ str.count '.' ≤ 1 := by
  unfold is_num_str
  rw [is_num_str_loop_spec]
  simp

/-- Claim C13, the code at the failing input: `is_num_str` returns non-zero exactly for
the strings that hold at most one dot, whatever their other characters; so
`is_num_str("abc")` is non-zero although no character of `abc` is a digit or a dot, and
`swiper -s video.mp4 -r abc` passes `swiper_safety_protocol`. -/
theorem C13_is_num_str_accepts_letters :
    (∀ str : CStr, is_num_str str = true ↔ str.count '.' ≤ 1)
    ∧ is_num_str "abc".toList = true
    ∧ (∀ c ∈ "abc".toList, isdigit c = false ∧ c ≠ '.')
    ∧ swiper_safety_protocol (F_SAVE ||| F_RFPS) bad_rate_sys = none :=
  ⟨is_num_str_spec, by decide⟩

/-! ## Claim C14: `filename` -/

theorem filename_loop_no_slash : ∀ (s : CStr) (i n : Nat), (∀ c ∈ s, c ≠ '/') →
    filename_loop s i n = (i + s.length, n) := by
  intro s
  induction s with
  | nil => intro i n _; rfl
  | cons c cs ih =>
    intro i n h
    have hc : (c == '/') = false := by simpa using h c (by simp)
    rw [filename_loop, hc, ih (i + 1) _ (fun x hx => h x (by simp [hx]))]
    simp only [Bool.false_eq_true, if_false, List.length_cons]
    congr 1
    omega

theorem filename_loop_last_slash : ∀ (a b : CStr) (i n : Nat), (∀ c ∈ b, c ≠ '/') →
    filename_loop (a ++ '/' :: b) i n = (i + a.length + 1 + b.length, i + a.length + 1) := by
  intro a
  induction a with
  | nil =>
    intro b i n h
    rw [List.nil_append, filename_loop, filename_loop_no_slash b (i + 1) _ h]
    simp
  | cons c cs ih =>
    intro b i n h
    rw [List.cons_append, filename_loop, ih b (i + 1) _ h]
    simp only [List.length_cons]
    congr 1 <;> omega

/-- A path without `/` is turned down by `filename`. -/
theorem filename_no_slash (s : CStr) (h : ∀ c ∈ s, c ≠ '/') : filename s = none := by
  unfold filename
  rw [filename_loop_no_slash s 0 0 h]
  simp only
  split
  · rfl
  · rfl

theorem final_component_last_slash (a b : CStr) (h : ∀ c ∈ b, c ≠ '/') :
    final_component (a ++ '/' :: b) = b.take FILE_LEN := by
  unfold final_component
  have hrev : (a ++ '/' :: b).reverse = b.reverse ++ '/' :: a.reverse := by simp
  rw [hrev, takeWhile_append_of_all _ _ _ (fun c hc => by
    simpa using h c (List.mem_reverse.mp hc))]
  simp

/-- For a path that holds a `/` and does not end in one, `filename` returns the final
component, cut to `FILE_LEN` bytes. -/
theorem filename_last_slash (a b : CStr) (hb : b ≠ []) (h : ∀ c ∈ b, c ≠ '/') :
    filename (a ++ '/' :: b) = some (final_component (a ++ '/' :: b)) := by
  have hlen : 0 < b.length := List.length_pos.mpr hb
  unfold filename
  rw [filename_loop_last_slash a b 0 0 h, final_component_last_slash a b h]
  simp only
  rw [if_neg (by omega), if_neg (by omega)]
  congr 2
  have : 0 + a.length + 1 = (a ++ ['/']).length := by simp
  rw [this]
  have h2 : a ++ '/' :: b = (a ++ ['/']) ++ b := by simp
  rw [h2, List.drop_left]

/-- Claim C14, the code at the failing input: `filename` returns `NULL` for every path
that holds no `/`, and the final component, cut to `FILE_LEN` bytes, for every path that
holds a `/` and does not end in one.  For the relative path `05-06-97.avi` of the help
text, whose final component is the whole path, it returns `NULL`; for `./05-06-97.avi`
it returns `05-06-97.avi`. -/
theorem C14_filename_without_slash :
    (∀ s : CStr, (∀ c ∈ s, c ≠ '/') → filename s = none)
    ∧ (∀ a b : CStr, b ≠ [] → (∀ c ∈ b, c ≠ '/') →
        filename (a ++ '/' :: b) = some (final_component (a ++ '/' :: b)))
    ∧ filename "05-06-97.avi".toList = none
    ∧ final_component "05-06-97.avi".toList = "05-06-97.avi".toList
    ∧ filename "./05-06-97.avi".toList = some "05-06-97.avi".toList :=
  ⟨filename_no_slash, filename_last_slash, by decide⟩

/-! ## Claim C15: `lateral_dir_visfile_isempty` -/

/-- What the loop of `lateral_dir_visfile_isempty` computes, for a counter `i` of at
most 1: the directory is reported empty unless the visible entries read so far and still
to be read are more than one. -/
theorem isempty_loop_spec : ∀ (ents : List Dirent) (i : Int), i ≤ 1 →
    (isempty_loop ents i = true ↔ (ents.countP visible : Int) + i ≤ 1) := by
  intro ents
  induction ents with
  | nil =>
    intro i hi
    simp only [isempty_loop, List.countP_nil, Nat.cast_zero, zero_add, true_iff]
    exact hi
  | cons ent rest ih =>
    intro i hi
    rw [isempty_loop]
    by_cases hdot : deref ent.d_name = '.'
    · have hb : (deref ent.d_name == '.') = true := by simp [hdot]
      have hv : visible ent = false := by simp [visible, hdot]
      have hcnt : (ent :: rest).countP visible = rest.countP visible := by
        rw [List.countP_cons_of_neg]
        simp [hv]
      simp only [hb, if_true]
      rw [if_neg (by omega), hcnt]
      have := ih (i - 1 + 1) (by omega)
      rw [this]
      constructor <;> intro h <;> omega
    · have hb : (deref ent.d_name == '.') = false := by simp [hdot]
      have hv : visible ent = true := by simp [visible, hdot]
      have hcnt : (ent :: rest).countP visible = rest.countP visible + 1 := by
        rw [List.countP_cons_of_pos _ _ hv]
      simp only [hb, Bool.false_eq_true, if_false]
      rw [hcnt]
      by_cases hpos : 0 < i
      · rw [if_pos hpos]
        constructor
        · intro h; exact absurd h (by decide)
        · intro h
          push_cast at h
          omega
      · rw [if_neg hpos, ih (i + 1) (by omega)]
        push_cast
        constructor <;> intro h <;> omega

/-- `lateral_dir_visfile_isempty` reports a directory as empty exactly when it holds at
most one visible entry. -/
theorem lateral_dir_visfile_isempty_spec (ents : List Dirent) :
    lateral_dir_visfile_isempty ents = true ↔ ents.countP visible ≤ 1 := by
  unfold lateral_dir_visfile_isempty
  rw [isempty_loop_spec ents 0 (by decide)]
  constructor <;> intro h <;> omega

/-- Claim C15, the code at the failing input: `lateral_dir_visfile_isempty` returns 1
exactly for the directories that hold at most one visible entry.  `one_frame_dir` holds
exactly one visible entry, the frame `0001.jpg`; `lateral_dir_visfile_isempty` returns 1
for it, and `swiper -a` ends in `no wallpaper saved`. -/
theorem C15_one_visible_entry_is_empty :
    (∀ ents : List Dirent, lateral_dir_visfile_isempty ents = true ↔ ents.countP visible ≤ 1)
    ∧ one_frame_dir.countP visible = 1
    ∧ lateral_dir_visfile_isempty one_frame_dir = true
    ∧ swiper_safety_protocol F_RUN one_frame_sys
      = some "no wallpaper saved, use \x27-s <video-file>\x27" :=
  ⟨lateral_dir_visfile_isempty_spec, by decide⟩

end Swiper
